import Mathlib

/-!
# Greenlight data layer: a shallow embedding

The Go package `internal/data` is embedded as pure Lean functions.

* A Go `string` or `[]byte` is a list of bytes (`GoString`).
* Go `int`, `int64` and SQL integers are `Int`; a `time.Time` is an `Int` instant and a
  `time.Duration` an `Int` offset on the same scale.
* A Go `error` result is an `Option GoError` (`none` is `nil`).
* The PostgreSQL backend is an in-memory `DB` value: three tables and the list of statements
  issued so far.  Every statement of the package is a function `DB → result × DB` that follows
  the SQL text of the source.  Timeouts and connection failures are outside the model.
-/

namespace Greenlight

/-! ## Strings -/

/-- Go `string` and `[]byte`: a finite sequence of bytes. -/
abbrev GoString := List UInt8

/-- The byte of an ASCII character. -/
def ch (c : Char) : UInt8 := c.toNat.toUInt8

/-- The bytes of an ASCII literal. -/
def str (s : String) : GoString := s.data.map ch

/-- Go `strings.HasPrefix`. -/
def HasPrefix (s pre : GoString) : Bool := pre.isPrefixOf s

/-- Go `strings.TrimPrefix`. -/
def TrimPrefix (s pre : GoString) : GoString :=
  if HasPrefix s pre then s.drop pre.length else s

/-- Go `strings.Contains`. -/
def Contains : GoString → GoString → Bool
  | [], substr => substr.isEmpty
  | c :: cs, substr => substr.isPrefixOf (c :: cs) || Contains cs substr

/-! ## Errors (`models.go`, `runtime.go`, and the two driver errors the package inspects) -/

/-- Go error values that flow through the package. -/
inductive GoError where
  /-- `data.ErrNoRecordFound` -/
  | ErrNoRecordFound
  /-- `data.ErrEditConflict` -/
  | ErrEditConflict
  /-- `data.ErrDuplicateEmail` -/
  | ErrDuplicateEmail
  /-- `data.ErrInvalidRuntimeFormat` -/
  | ErrInvalidRuntimeFormat
  /-- `sql.ErrNoRows` -/
  | sqlErrNoRows
  /-- An error reported by the database driver, with its message. -/
  | pqError (msg : GoString)
  deriving DecidableEq, Repr

/-- The `Error()` method: the message of an error value. -/
def GoError.Error : GoError → GoString
  | .ErrNoRecordFound => str "record not found"
  | .ErrEditConflict => str "edit conflict"
  | .ErrDuplicateEmail => str "duplicate email"
  | .ErrInvalidRuntimeFormat => str "invalid runtime format"
  | .sqlErrNoRows => str "sql: no rows in result set"
  | .pqError msg => msg

/-- The driver error for a violated unique constraint. -/
def uniqueViolation (constraintName : GoString) : GoError :=
  .pqError (str "pq: duplicate key value violates unique constraint \"" ++ constraintName
    ++ str "\"")

/-! ## Records (`movies.go`, `users.go`, `tokens.go`) -/

/-- The `Movie` struct.  `Genres` is `none` for a nil slice. -/
structure Movie where
  CreatedAt : Int
  Title : GoString
  Genres : Option (List GoString)
  ID : Int
  Year : Int
  Runtime : Int
  Version : Int
  deriving DecidableEq, Repr

/-- The `password` struct: an optional plaintext and the hash (`none` is nil). -/
structure password where
  plaintext : Option GoString
  hash : Option GoString
  deriving DecidableEq, Repr

/-- The `User` struct. -/
structure User where
  CreatedAt : Int
  Name : GoString
  Email : GoString
  Password : password
  ID : Int
  Version : Int
  Activated : Bool
  deriving DecidableEq, Repr

/-- The `Token` struct. -/
structure Token where
  Plaintext : GoString
  Expiry : Int
  Scope : GoString
  Hash : GoString
  UserID : Int
  deriving DecidableEq, Repr

/-! ## The backing store -/

/-- A row of table `users(id, created_at, name, email, password_hash, activated, version)`. -/
structure UserRow where
  id : Int
  created_at : Int
  name : GoString
  email : GoString
  password_hash : Option GoString
  activated : Bool
  version : Int
  deriving DecidableEq, Repr

/-- A row of table `tokens(hash, user_id, expiry, scope)`. -/
structure TokenRow where
  hash : GoString
  user_id : Int
  expiry : Int
  scope : GoString
  deriving DecidableEq, Repr

/-- A statement sent to the database, with its arguments. -/
inductive DBCall where
  | moviesSelectByID (id : Int)
  | moviesUpdate (title : GoString) (year runtime : Int) (genres : Option (List GoString))
      (id version : Int)
  | moviesList (orderBy title : GoString) (genres : Option (List GoString)) (limit offset : Int)
  | usersUpdate (name email : GoString) (hash : Option GoString) (activated : Bool)
      (id version : Int)
  | usersSelectForToken (hash scope : GoString) (now : Int)
  | tokensInsert (hash : GoString) (userID expiry : Int) (scope : GoString)
  deriving DecidableEq, Repr

/-- The integer types of an SQL column. -/
inductive IntegerType where
  | smallint
  | integer
  | bigint
  deriving DecidableEq, Repr

/-- The largest value of an integer type; none exceeds the largest Go `int`. -/
def IntegerType.maxValue : IntegerType → Int
  | .smallint => 32767
  | .integer => 2147483647
  | .bigint => 9223372036854775807

/-- The name of an integer type in the messages of the database. -/
def IntegerType.typeName : IntegerType → GoString
  | .smallint => str "smallint"
  | .integer => str "integer"
  | .bigint => str "bigint"

/-- The driver error for an integer result that leaves the range of its type. -/
def outOfRange (t : IntegerType) : GoError :=
  .pqError (str "pq: " ++ t.typeName ++ str " out of range")

/-- The database: the rows of table `movies` (a row has the columns of a `Movie`), of `users`
and of `tokens`, the statements issued so far, oldest first, and the integer types of the two
`version` columns, which `version = version + 1` computes in (the table definitions are not
among the sources, so the types are part of the database). -/
structure DB where
  movies : List Movie
  users : List UserRow
  tokens : List TokenRow
  calls : List DBCall
  movieVersionType : IntegerType
  userVersionType : IntegerType
  deriving DecidableEq, Repr

/-- Record that a statement was sent. -/
def DB.issue (db : DB) (c : DBCall) : DB := { db with calls := db.calls ++ [c] }

/-- What `QueryRowContext(...).Scan` yields from the result rows of a statement:
`sql.ErrNoRows` when there is none, the first row otherwise. -/
def scanRow {α : Type} : List α → Except GoError α
  | [] => .error .sqlErrNoRows
  | r :: _ => .ok r

/-- The results of a model method: the Go `error`, the other result (or the record the method
writes through its pointer argument), and the database afterwards. -/
structure Outcome (α : Type) where
  err : Option GoError
  out : α
  db : DB

/-! ## `movies.go` -/

/-- The statement of `MovieModel.Get`:
`SELECT id, created_at, title, year, runtime, genres, version FROM movies WHERE id=$1`. -/
def DB.selectMovieByID (db : DB) (id : Int) : List Movie × DB :=
  (db.movies.filter (fun r => r.ID = id), db.issue (.moviesSelectByID id))

/-- `MovieModel.Get`. -/
def MovieModel.Get (db : DB) (id : Int) : Outcome (Option Movie) :=
  if id < 0 then
    ⟨some .ErrNoRecordFound, none, db⟩
  else
    let (rows, db1) := db.selectMovieByID id
    match scanRow rows with
    | .error err =>
      if err = .sqlErrNoRows then ⟨some .ErrNoRecordFound, none, db1⟩
      else ⟨some err, none, db1⟩
    | .ok movie => ⟨none, some movie, db1⟩

/-- The row test `WHERE id=$5 AND version=$6` of the movie update. -/
def movieHit (id version : Int) (r : Movie) : Bool := r.ID = id && r.Version = version

/-- Whether `version + 1` leaves the range of integer type `t` for one of the versions. -/
def versionOverflow (t : IntegerType) (versions : List Int) : Bool :=
  versions.any (fun v => decide (t.maxValue < v + 1))

/-- The assignment `SET title=$1, year=$2, runtime=$3, genres=$4, version = version + 1`, for a
row whose `version + 1` is in the range of the column. -/
def movieSet (title : GoString) (year runtime : Int) (genres : Option (List GoString))
    (r : Movie) : Movie :=
  { r with Title := title, Year := year, Runtime := runtime, Genres := genres,
           Version := r.Version + 1 }

/-- The statement of `MovieModel.Update`:
`UPDATE movies SET ... WHERE id=$5 AND version=$6 RETURNING version`.
Returns the `version` of every updated row.  When `version + 1` leaves the range of the column
for a row under the test, the statement fails and changes no row. -/
def DB.updateMovie (db : DB) (title : GoString) (year runtime : Int)
    (genres : Option (List GoString)) (id version : Int) : Except GoError (List Int) × DB :=
  let db1 := db.issue (.moviesUpdate title year runtime genres id version)
  if versionOverflow db.movieVersionType
      ((db.movies.filter (movieHit id version)).map (fun r => r.Version)) then
    (.error (outOfRange db.movieVersionType), db1)
  else
    (.ok (((db.movies.filter (movieHit id version)).map (movieSet title year runtime genres)).map
        (fun r => r.Version)),
     { db1 with
       movies := db.movies.map
         (fun r => if movieHit id version r then movieSet title year runtime genres r else r) })

/-- `MovieModel.Update`.  `out` is the caller's record after the call. -/
def MovieModel.Update (db : DB) (mov : Movie) : Outcome Movie :=
  let (res, db1) :=
    db.updateMovie mov.Title mov.Year mov.Runtime mov.Genres mov.ID mov.Version
  match res.bind scanRow with
  | .error err =>
    if err = .sqlErrNoRows then ⟨some .ErrEditConflict, mov, db1⟩
    else ⟨some err, mov, db1⟩
  | .ok version => ⟨none, { mov with Version := version }, db1⟩

/-! ## `users.go` -/

/-- The row test `WHERE id=$5 AND version=$6` of the user update. -/
def userHit (id version : Int) (r : UserRow) : Bool := r.id = id && r.version = version

/-- The assignment
`SET name=$1, email=$2, password_hash=$3, activated=$4, version=version + 1`, for a row whose
`version + 1` is in the range of the column. -/
def userSet (name email : GoString) (hash : Option GoString) (activated : Bool)
    (r : UserRow) : UserRow :=
  { r with name := name, email := email, password_hash := hash, activated := activated,
           version := r.version + 1 }

/-- Whether the user update would break the unique constraint `users_email_key` on `email`:
a row is updated and its new email is also the email of a different row. -/
def emailClash (rows : List UserRow) (email : GoString) (id version : Int) : Bool :=
  let hits := rows.filter (userHit id version)
  (!hits.isEmpty && (rows.filter (fun r => !userHit id version r)).any (fun r => r.email = email))
    || 2 ≤ hits.length

/-- The statement of `UserModel.UpdateUser`:
`UPDATE users SET ... WHERE id=$5 AND version=$6 RETURNING version`.
When `version + 1` leaves the range of the column for a row under the test, or the new rows
break the unique constraint, the statement fails and changes no row. -/
def DB.updateUser (db : DB) (name email : GoString) (hash : Option GoString) (activated : Bool)
    (id version : Int) : Except GoError (List Int) × DB :=
  let db1 := db.issue (.usersUpdate name email hash activated id version)
  if versionOverflow db.userVersionType
      ((db.users.filter (userHit id version)).map (fun r => r.version)) then
    (.error (outOfRange db.userVersionType), db1)
  else if emailClash db.users email id version then
    (.error (uniqueViolation (str "users_email_key")), db1)
  else
    (.ok (((db.users.filter (userHit id version)).map (userSet name email hash activated)).map
        (fun r => r.version)),
     { db1 with
       users := db.users.map
         (fun r => if userHit id version r then userSet name email hash activated r else r) })

/-- `UserModel.UpdateUser`.  `out` is the caller's record after the call. -/
def UserModel.UpdateUser (db : DB) (user : User) : Outcome User :=
  let (res, db1) := db.updateUser user.Name user.Email user.Password.hash user.Activated
    user.ID user.Version
  match res.bind scanRow with
  | .error err =>
    if Contains err.Error (str "users_email_key") then ⟨some .ErrDuplicateEmail, user, db1⟩
    else ⟨some err, user, db1⟩
  | .ok version => ⟨none, { user with Version := version }, db1⟩

/-! ## `float64` arithmetic used by `calculateMetadata`

Only conversion from `int`, division, `math.Ceil` and conversion back to `int` are needed.
The operands are `int64` values, so every finite result is normal: neither overflow to
infinity nor gradual underflow can occur in the rounding step. -/

/-- A `float64` value: `(-1)^neg * mant * 2^exp`, an infinity, or NaN. -/
inductive Float64 where
  | finite (neg : Bool) (mant : Nat) (exp : Int)
  | inf (neg : Bool)
  | nan
  deriving DecidableEq, Repr

/-- The loop computing `ilog2`; the first argument bounds the number of iterations. -/
def ilog2Loop : Nat → Nat → Nat
  | 0, _ => 0
  | fuel + 1, n => if 2 ≤ n then ilog2Loop fuel (n / 2) + 1 else 0

/-- The position of the leading bit of `n`: the greatest `k` with `2 ^ k ≤ n` (0 for `n = 0`). -/
def ilog2 (n : Nat) : Nat := ilog2Loop n n

/-- Round the positive rational `num / den` to the nearest value with a 53-bit significand,
ties to even, and attach the sign. -/
def Float64.round (neg : Bool) (num den : Nat) : Float64 :=
  if num = 0 then .finite neg 0 0
  else
    let d : Int := (ilog2 num : Int) - (ilog2 den : Int)
    -- `e` is the exponent of the leading bit of `num / den`
    let e : Int := if den * 2 ^ d.toNat ≤ num * 2 ^ (-d).toNat then d else d - 1
    let exp : Int := e - 52
    let n := num * 2 ^ (-exp).toNat
    let m := den * 2 ^ exp.toNat
    let q := n / m
    let r := n % m
    if m < 2 * r ∨ (2 * r = m ∧ q % 2 = 1) then .finite neg (q + 1) exp
    else .finite neg q exp

/-- The conversion `float64(n)` of an integer. -/
def Float64.ofInt (n : Int) : Float64 := Float64.round (decide (n < 0)) n.natAbs 1

/-- The quotient `x / y` of IEEE 754 binary64. -/
def Float64.div : Float64 → Float64 → Float64
  | .nan, _ => .nan
  | _, .nan => .nan
  | .inf _, .inf _ => .nan
  | .inf s, .finite t _ _ => .inf (s != t)
  | .finite s _ _, .inf t => .finite (s != t) 0 0
  | .finite s m e, .finite t n k =>
    if n = 0 then (if m = 0 then .nan else .inf (s != t))
    else Float64.round (s != t) (m * 2 ^ e.toNat * 2 ^ (-k).toNat)
      (n * 2 ^ k.toNat * 2 ^ (-e).toNat)

/-- Go `math.Ceil`. -/
def Float64.Ceil : Float64 → Float64
  | .finite s m e =>
    if 0 ≤ e then .finite s m e
    else if s then .finite true (m / 2 ^ (-e).toNat) 0
    else .finite false ((m + 2 ^ (-e).toNat - 1) / 2 ^ (-e).toNat) 0
  | x => x

/-- The conversion `int(x)`: truncation toward zero.  Go leaves the result open when the value
does not fit; the model takes the amd64 answer, the least `int64`. -/
def Float64.toInt : Float64 → Int
  | .finite s m e =>
    let a : Int := ((m * 2 ^ e.toNat / 2 ^ (-e).toNat : Nat) : Int)
    let v : Int := if s then -a else a
    if -(2 : Int) ^ 63 ≤ v ∧ v < (2 : Int) ^ 63 then v else -(2 : Int) ^ 63
  | _ => -(2 : Int) ^ 63

/-- Reduce an integer to the `int64` it is after two's-complement wrap-around. -/
def wrapInt64 (x : Int) : Int := (x + 2 ^ 63) % 2 ^ 64 - 2 ^ 63

/-! ## `filters.go` -/

/-- The `Filters` struct.  Field `Sort` is spelled `Sort_` (`Sort` is reserved in Lean). -/
structure Filters where
  Sort_ : GoString
  SortSafelist : List GoString
  Page : Int
  PageSize : Int
  deriving DecidableEq, Repr

/-- The loop of `sortColumn` over the safelist: the trimmed first entry equal to `sort`,
or `none` when the loop runs off the end. -/
def sortColumnLoop (sort : GoString) : List GoString → Option GoString
  | [] => none
  | safeVal :: rest =>
    if safeVal = sort then some (TrimPrefix safeVal (str "-")) else sortColumnLoop sort rest

/-- `Filters.sortColumn`.  `Except.error msg` is `panic(msg)`. -/
def Filters.sortColumn (f : Filters) : Except GoString GoString :=
  match sortColumnLoop f.Sort_ f.SortSafelist with
  | some column => .ok column
  | none => .error (str "unsafe sort value: " ++ f.Sort_)

/-- `Filters.sortDirection`. -/
def Filters.sortDirection (f : Filters) : GoString :=
  if HasPrefix f.Sort_ (str "-") then str "DESC" else str "ASC"

/-- `Filters.limit`. -/
def Filters.limit (f : Filters) : Int := f.PageSize

/-- `Filters.offset`. -/
def Filters.offset (f : Filters) : Int := wrapInt64 (wrapInt64 (f.Page - 1) * f.PageSize)

/-- The `Metadata` struct. -/
structure Metadata where
  CurrentPage : Int := 0
  PageSize : Int := 0
  FirstPage : Int := 0
  LastPage : Int := 0
  TotalRecords : Int := 0
  deriving DecidableEq, Repr

/-- `calculateMetadata`. -/
def calculateMetadata (totalRecords page pageSize : Int) : Metadata :=
  if totalRecords = 0 then {}
  else
    let lastPage := Float64.Ceil ((Float64.ofInt totalRecords).div (Float64.ofInt pageSize))
    { CurrentPage := page
      PageSize := pageSize
      FirstPage := 1
      LastPage := lastPage.toInt
      TotalRecords := totalRecords }

/-! ## The list statement of `MovieModel.GetAll` -/

/-- The two PostgreSQL text operations the list statement relies on, left abstract. -/
structure Backend where
  /-- `to_tsvector('simple', title) @@ plainto_tsquery('simple', q)` -/
  titleMatch : (title q : GoString) → Bool
  /-- Comparison of two `text` values under the collation of the database. -/
  textCompare : GoString → GoString → Ordering

/-- Whether `genres @> $2 OR $2 = '{}'` is TRUE.  `none` is NULL (a nil slice is sent as
NULL), and a NULL operand makes a comparison NULL. -/
def genresCond (rowGenres arg : Option (List GoString)) : Bool :=
  match arg with
  | none => false
  | some [] => true
  | some (g :: gs) =>
    match rowGenres with
    | none => false
    | some stored => (g :: gs).all (fun x => stored.contains x)

/-- The `WHERE` clause of the list statement. -/
def listWhere (be : Backend) (title : GoString) (genres : Option (List GoString))
    (r : Movie) : Bool :=
  (be.titleMatch r.Title title || title = []) && genresCond r.Genres genres

/-- Comparison of two `text[]` values: element by element, a proper initial segment first. -/
def arrayCompare (cmp : GoString → GoString → Ordering) :
    List GoString → List GoString → Ordering
  | [], [] => .eq
  | [], _ :: _ => .lt
  | _ :: _, [] => .gt
  | a :: as, b :: bs =>
    match cmp a b with
    | .eq => arrayCompare cmp as bs
    | o => o

/-- ASCII lower-casing, as PostgreSQL folds an identifier that is not quoted. -/
def foldIdent (s : GoString) : GoString :=
  s.map (fun b => if 65 ≤ b.toNat ∧ b.toNat ≤ 90 then (b.toNat + 32).toUInt8 else b)

/-- The ascending order of an `ORDER BY` column (NULL sorts last), or `none` when the text is
not the name of a column of `movies`.  Only plain column names are interpreted. -/
def columnCompare (be : Backend) (column : GoString) : Option (Movie → Movie → Ordering) :=
  let c := foldIdent column
  if c = str "id" then some (fun a b => compare a.ID b.ID)
  else if c = str "created_at" then some (fun a b => compare a.CreatedAt b.CreatedAt)
  else if c = str "title" then some (fun a b => be.textCompare a.Title b.Title)
  else if c = str "year" then some (fun a b => compare a.Year b.Year)
  else if c = str "runtime" then some (fun a b => compare a.Runtime b.Runtime)
  else if c = str "version" then some (fun a b => compare a.Version b.Version)
  else if c = str "genres" then
    some (fun a b =>
      match a.Genres, b.Genres with
      | none, none => .eq
      | none, some _ => .gt
      | some _, none => .lt
      | some x, some y => arrayCompare be.textCompare x y)
  else none

/-- Whether row `a` may stand before row `b` under `ORDER BY <column> <direction>, id ASC`. -/
def rowLe (cmp : Movie → Movie → Ordering) (desc : Bool) (a b : Movie) : Bool :=
  match (if desc then cmp b a else cmp a b) with
  | .lt => true
  | .gt => false
  | .eq => a.ID ≤ b.ID

/-- The statement of `MovieModel.GetAll`:
`SELECT COUNT(*) OVER(), id, ... FROM movies WHERE ... ORDER BY <column> <direction>, id ASC
LIMIT $3 OFFSET $4`.  Every result row carries the number of rows that pass `WHERE`. -/
def DB.selectMovies (db : DB) (be : Backend) (column direction title : GoString)
    (genres : Option (List GoString)) (limit offset : Int) :
    Except GoError (List (Int × Movie)) × DB :=
  let db1 := db.issue (.moviesList (column ++ str " " ++ direction) title genres limit offset)
  match columnCompare be column with
  | none => (.error (.pqError (str "pq: column \"" ++ column ++ str "\" does not exist")), db1)
  | some cmp =>
    if offset < 0 then (.error (.pqError (str "pq: OFFSET must not be negative")), db1)
    else if limit < 0 then (.error (.pqError (str "pq: LIMIT must not be negative")), db1)
    else
      let pass := db.movies.filter (listWhere be title genres)
      let sorted := pass.insertionSort (fun a b => rowLe cmp (direction = str "DESC") a b = true)
      (.ok (((sorted.drop offset.toNat).take limit.toNat).map
        (fun r => ((pass.length : Int), r))), db1)

/-- A call that may panic. -/
inductive Run (α : Type) where
  /-- The call panicked with `msg`; `db` is the database at that moment. -/
  | panicked (msg : GoString) (db : DB)
  /-- The call returned. -/
  | returned (o : Outcome α)

/-- `MovieModel.GetAll`.  The slice result is `none` for nil. -/
def MovieModel.GetAll (be : Backend) (db : DB) (title : GoString)
    (genres : Option (List GoString)) (f : Filters) :
    Run (Option (List Movie) × Metadata) :=
  -- the arguments of `fmt.Sprintf` are evaluated first, `f.sortColumn()` before the rest
  match f.sortColumn with
  | .error msg => .panicked msg db
  | .ok column =>
    let (res, db1) := db.selectMovies be column f.sortDirection title genres f.limit f.offset
    match res with
    | .error err => .returned ⟨some err, (none, {}), db1⟩
    | .ok rows =>
      let totalRecords := rows.foldl (fun _ row => row.1) 0
      let movies := rows.foldl (fun acc row => acc ++ [row.2]) []
      .returned ⟨none, (some movies, calculateMetadata totalRecords f.Page f.PageSize), db1⟩

/-! ## `internal/validator` -/

/-- Modelled from the spec: package `internal/validator` is not among the sources.  Validation
errors are field-tagged and collected, one message per field (the first one recorded). -/
structure Validator where
  Errors : List (GoString × GoString)
  deriving DecidableEq, Repr

/-- Modelled from the spec: `AddError` records a message under a field that has none yet. -/
def Validator.AddError (v : Validator) (key message : GoString) : Validator :=
  if v.Errors.any (fun e => e.1 = key) then v else ⟨v.Errors ++ [(key, message)]⟩

/-- Modelled from the spec: `Check` records the message when the condition is false. -/
def Validator.Check (v : Validator) (ok : Bool) (key message : GoString) : Validator :=
  if !ok then v.AddError key message else v

/-- Modelled from the spec: `Valid` holds when no error was recorded. -/
def Validator.Valid (v : Validator) : Bool := v.Errors.isEmpty

/-! ## `tokens.go` -/

/-- The standard base-32 alphabet of RFC 4648. -/
def encodeStd : GoString := str "ABCDEFGHIJKLMNOPQRSTUVWXYZ234567"

/-- The eight 5-bit blocks of a quantum of up to five bytes (missing bytes count as zero), as
`Encoding.Encode` of `encoding/base32` unpacks them. -/
def base32Blocks (s0 s1 s2 s3 s4 : UInt8) : List UInt8 :=
  [ s0 >>> 3,
    ((s0 <<< 2) &&& (0x1F : UInt8)) ||| ((s1 >>> 6) &&& (0x1F : UInt8)),
    (s1 >>> 1) &&& (0x1F : UInt8),
    ((s1 <<< 4) &&& (0x1F : UInt8)) ||| ((s2 >>> 4) &&& (0x1F : UInt8)),
    ((s2 <<< 1) &&& (0x1F : UInt8)) ||| (s3 >>> 7),
    (s3 >>> 2) &&& (0x1F : UInt8),
    ((s3 <<< 3) &&& (0x1F : UInt8)) ||| (s4 >>> 5),
    s4 &&& (0x1F : UInt8) ]

/-- The character of a 5-bit block: `enc.encode[b&31]`. -/
def base32Char (b : UInt8) : UInt8 := encodeStd.getD (b &&& 31).toNat 0

/-- `base32.StdEncoding.WithPadding(base32.NoPadding).EncodeToString`: eight characters for
every five bytes, and `(8 * k + 4) / 5` characters for a last group of `k < 5` bytes. -/
def base32EncodeNoPadding : GoString → GoString
  | [] => []
  | [a] => ((base32Blocks a 0 0 0 0).take 2).map base32Char
  | [a, b] => ((base32Blocks a b 0 0 0).take 4).map base32Char
  | [a, b, c] => ((base32Blocks a b c 0 0).take 5).map base32Char
  | [a, b, c, d] => ((base32Blocks a b c d 0).take 7).map base32Char
  | a :: b :: c :: d :: e :: rest =>
    (base32Blocks a b c d e).map base32Char ++ base32EncodeNoPadding rest

/-- The type of `sha256.Sum256`, which the model leaves abstract: a function from byte strings
to 32-byte arrays. -/
abbrev Sum256 := GoString → { d : GoString // d.length = 32 }

/-- `generateToken`.  `now` is `time.Now()` and `randRead` is what `rand.Read` puts into the
16-byte buffer, or its error. -/
def generateToken (sum256 : Sum256) (now : Int) (randRead : Except GoError GoString)
    (userID ttl : Int) (scope : GoString) : Except GoError Token :=
  match randRead with
  | .error err => .error err
  | .ok randomBytes =>
    let plaintext := base32EncodeNoPadding randomBytes
    .ok { UserID := userID, Expiry := now + ttl, Scope := scope,
          Plaintext := plaintext, Hash := (sum256 plaintext).val }

/-- `ValidatePlaintextToken`. -/
def ValidatePlaintextToken (v : Validator) (plaintextToken : GoString) : Validator :=
  let v := v.Check (plaintextToken != []) (str "token") (str "must be provided")
  v.Check (plaintextToken.length == 26) (str "token") (str "must be 26 bytes long")

/-- `TokensModel.Insert`:
`INSERT INTO tokens (hash, user_id, expiry, scope) VALUES ($1, $2, $3, $4)`. -/
def TokensModel.Insert (db : DB) (token : Token) : Outcome Unit :=
  ⟨none, (),
   { db with
     tokens := db.tokens ++ [⟨token.Hash, token.UserID, token.Expiry, token.Scope⟩],
     calls := db.calls ++ [.tokensInsert token.Hash token.UserID token.Expiry token.Scope] }⟩

/-- `TokensModel.New`. -/
def TokensModel.New (sum256 : Sum256) (db : DB) (now : Int)
    (randRead : Except GoError GoString) (userID ttl : Int) (scope : GoString) :
    Outcome (Option Token) :=
  match generateToken sum256 now randRead userID ttl scope with
  | .error err => ⟨some err, none, db⟩
  | .ok token =>
    let o := TokensModel.Insert db token
    ⟨o.err, some token, o.db⟩

/-- The statement of `UserModel.GetForToken`:
`SELECT users.* FROM users INNER JOIN tokens ON users.id = tokens.user_id
WHERE tokens.hash = $1 AND tokens.scope = $2 AND tokens.expiry > $3`. -/
def DB.selectUserForToken (db : DB) (hash scope : GoString) (now : Int) : List UserRow × DB :=
  (db.users.flatMap (fun u =>
     (db.tokens.filter (fun t =>
        u.id = t.user_id && t.hash = hash && t.scope = scope && t.expiry > now)).map
       (fun _ => u)),
   db.issue (.usersSelectForToken hash scope now))

/-- `UserModel.GetForToken`.  `now` is `time.Now()`. -/
def UserModel.GetForToken (sum256 : Sum256) (db : DB) (now : Int)
    (tokenPlaintext scope : GoString) : Outcome (Option User) :=
  let tokenHash := sum256 tokenPlaintext
  let (rows, db1) := db.selectUserForToken tokenHash.val scope now
  match scanRow rows with
  | .error err =>
    if err = .sqlErrNoRows then ⟨some .ErrNoRecordFound, none, db1⟩
    else ⟨some err, none, db1⟩
  | .ok r =>
    ⟨none,
     some { ID := r.id, CreatedAt := r.created_at, Name := r.name, Email := r.email,
            Password := ⟨none, r.password_hash⟩, Activated := r.activated,
            Version := r.version },
     db1⟩

/-! ## Library functions used by `runtime.go`: `fmt`, `unicode/utf8`, `strconv`, `strings` -/

/-- The verb `%d` of `fmt.Sprintf` on an `int`. -/
def formatInt (i : Int) : GoString :=
  if i < 0 then ch '-' :: (Nat.toDigits 10 i.natAbs).map ch
  else (Nat.toDigits 10 i.natAbs).map ch

/-- The double quote `"`. -/
def dquote : UInt8 := 0x22

/-- The single quote. -/
def squote : UInt8 := 0x27

/-- The backquote. -/
def bquote : UInt8 := 0x60

/-- The backslash. -/
def bslash : UInt8 := 0x5C

/-- The hexadecimal digits `strconv` writes. -/
def lowerhex : GoString := str "0123456789abcdef"

/-- What `strconv.Quote` writes for one byte of ASCII input: a backslash before the quote and
the backslash, printable bytes as they are, the short escapes, `\x` and two hex digits for the
other control bytes.  A byte from `0x80` on is written as `\x..`, which is what Go does with
a byte that is not valid UTF-8; text beyond ASCII is not modelled. -/
def quoteByte (b : UInt8) : GoString :=
  if b = dquote ∨ b = bslash then [bslash, b]
  else if 0x20 ≤ b.toNat ∧ b.toNat < 0x7F then [b]
  else if b = 7 then [bslash, ch 'a']
  else if b = 8 then [bslash, ch 'b']
  else if b = 12 then [bslash, ch 'f']
  else if b = 10 then [bslash, ch 'n']
  else if b = 13 then [bslash, ch 'r']
  else if b = 9 then [bslash, ch 't']
  else if b = 11 then [bslash, ch 'v']
  else [bslash, ch 'x', lowerhex.getD (b >>> 4).toNat 0, lowerhex.getD (b &&& 0xF).toNat 0]

/-- A byte that `strconv.Quote` copies and that ends neither a quoted string nor a line:
printable ASCII other than the double quote and the backslash. -/
def plainByte (b : UInt8) : Bool :=
  decide (0x20 ≤ b.toNat) && decide (b.toNat < 0x7F) && b != dquote && b != bslash

/-- Go `strconv.Quote` (see `quoteByte` for the input it is exact on). -/
def Quote (s : GoString) : GoString := dquote :: (s.flatMap quoteByte ++ [dquote])

/-- The code point `utf8.RuneError`. -/
def RuneError : Nat := 0xFFFD

/-- Whether `b` is a UTF-8 continuation byte within `lo ..= hi`. -/
def inRange (lo hi : Nat) (b : UInt8) : Bool := lo ≤ b.toNat && b.toNat ≤ hi

/-- Go `utf8.DecodeRuneInString`: the first rune and its width; `(RuneError, 0)` for the empty
string and `(RuneError, 1)` for an invalid encoding. -/
def DecodeRuneInString (s : GoString) : Nat × Nat :=
  match s with
  | [] => (RuneError, 0)
  | s0 :: t =>
    let b0 := s0.toNat
    if b0 < 0x80 then (b0, 1)
    else if b0 < 0xC2 ∨ 0xF4 < b0 then (RuneError, 1)
    else
      -- the width and the accepted range of the second byte, from tables `first`, `acceptRanges`
      let sz := if b0 < 0xE0 then 2 else if b0 < 0xF0 then 3 else 4
      let lo := if b0 = 0xE0 then 0xA0 else if b0 = 0xF0 then 0x90 else 0x80
      let hi := if b0 = 0xED then 0x9F else if b0 = 0xF4 then 0x8F else 0xBF
      if t.length + 1 < sz then (RuneError, 1)
      else
        match t with
        | [] => (RuneError, 1)
        | s1 :: t1 =>
          if !inRange lo hi s1 then (RuneError, 1)
          else if sz ≤ 2 then ((b0 % 32) * 64 + s1.toNat % 64, 2)
          else
            match t1 with
            | [] => (RuneError, 1)
            | s2 :: t2 =>
              if !inRange 0x80 0xBF s2 then (RuneError, 1)
              else if sz ≤ 3 then ((b0 % 16) * 4096 + (s1.toNat % 64) * 64 + s2.toNat % 64, 3)
              else
                match t2 with
                | [] => (RuneError, 1)
                | s3 :: _ =>
                  if !inRange 0x80 0xBF s3 then (RuneError, 1)
                  else ((b0 % 8) * 262144 + (s1.toNat % 64) * 4096 + (s2.toNat % 64) * 64
                    + s3.toNat % 64, 4)

/-- Go `utf8.ValidRune`. -/
def ValidRune (r : Nat) : Bool := r < 0xD800 || (0xDFFF < r && r ≤ 0x10FFFF)

/-- Go `utf8.AppendRune` to an empty buffer: the UTF-8 encoding of `r`, of `RuneError` when
`r` is not a valid rune. -/
def encodeRune (r : Nat) : GoString :=
  if r ≤ 0x7F then [r.toUInt8]
  else if r ≤ 0x7FF then [(0xC0 + r / 64).toUInt8, (0x80 + r % 64).toUInt8]
  else if !ValidRune r then [0xEF, 0xBF, 0xBD]
  else if r ≤ 0xFFFF then
    [(0xE0 + r / 4096).toUInt8, (0x80 + r / 64 % 64).toUInt8, (0x80 + r % 64).toUInt8]
  else
    [(0xF0 + r / 262144).toUInt8, (0x80 + r / 4096 % 64).toUInt8,
     (0x80 + r / 64 % 64).toUInt8, (0x80 + r % 64).toUInt8]

/-- The loop of `utf8.ValidString`; the first argument bounds the number of runes. -/
def validStringLoop : Nat → GoString → Bool
  | 0, s => s.isEmpty
  | fuel + 1, s =>
    if s.isEmpty then true
    else
      let (r, n) := DecodeRuneInString s
      if r = RuneError ∧ n = 1 then false else validStringLoop fuel (s.drop n)

/-- Go `utf8.ValidString`. -/
def ValidString (s : GoString) : Bool := validStringLoop s.length s

/-- The function `unhex` of `strconv`. -/
def unhex (b : UInt8) : Option Nat :=
  if ch '0' ≤ b ∧ b ≤ ch '9' then some (b.toNat - 48)
  else if ch 'a' ≤ b ∧ b ≤ ch 'f' then some (b.toNat - 97 + 10)
  else if ch 'A' ≤ b ∧ b ≤ ch 'F' then some (b.toNat - 65 + 10)
  else none

/-- The value of `n` hexadecimal digits at the head of `s` and the rest of `s`; `none` when
there are fewer than `n` bytes or one of them is not a digit. -/
def readHex : Nat → GoString → Nat → Option (Nat × GoString)
  | 0, s, v => some (v, s)
  | _ + 1, [], _ => none
  | n + 1, c :: s, v =>
    match unhex c with
    | none => none
    | some x => readHex n s (v * 16 + x)

/-- The value of `n` octal digits at the head of `s` and the rest of `s`. -/
def readOctal : Nat → GoString → Nat → Option (Nat × GoString)
  | 0, s, v => some (v, s)
  | _ + 1, [], _ => none
  | n + 1, c :: s, v =>
    if ch '0' ≤ c ∧ c ≤ ch '7' then readOctal n s (v * 8 + (c.toNat - 48)) else none

/-- Go `strconv.UnquoteChar`: the value, whether it is a multibyte rune, and the tail; `none`
is `ErrSyntax`. -/
def UnquoteChar (s : GoString) (quote : UInt8) : Option (Nat × Bool × GoString) :=
  match s with
  | [] => none
  | c :: t =>
    if c = quote ∧ (quote = squote ∨ quote = dquote) then none
    else if 0x80 ≤ c.toNat then
      let (r, size) := DecodeRuneInString s
      some (r, true, s.drop size)
    else if c ≠ bslash then some (c.toNat, false, t)
    else
      match t with
      | [] => none
      | e :: s2 =>
        if e = ch 'a' then some (7, false, s2)
        else if e = ch 'b' then some (8, false, s2)
        else if e = ch 'f' then some (12, false, s2)
        else if e = ch 'n' then some (10, false, s2)
        else if e = ch 'r' then some (13, false, s2)
        else if e = ch 't' then some (9, false, s2)
        else if e = ch 'v' then some (11, false, s2)
        else if e = ch 'x' then (readHex 2 s2 0).map (fun (v, rest) => (v, false, rest))
        else if e = ch 'u' ∨ e = ch 'U' then
          match readHex (if e = ch 'u' then 4 else 8) s2 0 with
          | none => none
          | some (v, rest) => if ValidRune v then some (v, true, rest) else none
        else if ch '0' ≤ e ∧ e ≤ ch '7' then
          match readOctal 2 s2 (e.toNat - 48) with
          | none => none
          | some (v, rest) => if 255 < v then none else some (v, false, rest)
        else if e = bslash then some (bslash.toNat, false, s2)
        else if e = squote ∨ e = dquote then
          if e ≠ quote then none else some (e.toNat, false, s2)
        else none

/-- The loop of `strconv.unquote` over a quoted string with escape sequences: the bytes
collected and the input left when the loop ends; `none` is `ErrSyntax`.  The first argument
bounds the number of iterations; every iteration consumes input. -/
def unquoteLoop (quote : UInt8) : Nat → GoString → GoString → Option (GoString × GoString)
  | 0, inp, buf => some (buf, inp)
  | fuel + 1, inp, buf =>
    match inp with
    | [] => some (buf, inp)
    | c :: _ =>
      if c = quote then some (buf, inp)
      else
        match UnquoteChar inp quote with
        | none => none
        | some (r, multibyte, rem) =>
          if c = 10 then none
          else
            let buf1 := if r < 0x80 ∨ !multibyte then buf ++ [r.toUInt8] else buf ++ encodeRune r
            if quote = squote then some (buf1, rem) else unquoteLoop quote fuel rem buf1

/-- The function `index` of `strconv`: the position of the first byte `c` in `s`. -/
def index : GoString → UInt8 → Option Nat
  | [], _ => none
  | b :: s, c => if b = c then some 0 else (index s c).map (fun i => i + 1)

/-- The function `unquote` of `strconv` with `unescape` set: the unquoted text and the rest of
the input; `none` is an error. -/
def unquote (inp : GoString) : Option (GoString × GoString) :=
  match inp with
  | [] => none
  | [_] => none
  | quote :: rest =>
    match index rest quote with
    | none => none
    | some i =>
      -- `end` is `i + 2`
      let body := rest.take i
      let rem := rest.drop (i + 1)
      if quote = bquote then
        if !body.contains 13 then some (body, rem)
        else some (body.filter (fun b => b != 13), rem)
      else if quote = dquote ∨ quote = squote then
        let valid :=
          if quote = dquote then ValidString body
          else
            let (r, n) := DecodeRuneInString body
            decide (1 + n + 1 = i + 2) && (r != RuneError || n != 1)
        if !body.contains bslash && !body.contains 10 && valid then some (body, rem)
        else
          match unquoteLoop quote rest.length rest [] with
          | none => none
          | some (buf, left) =>
            match left with
            | [] => none
            | c :: after => if c = quote then some (buf, after) else none
      else none

/-- Go `strconv.Unquote`; `none` is `ErrSyntax`. -/
def Unquote (s : GoString) : Option GoString :=
  match unquote s with
  | none => none
  | some (out, rem) => if rem.length > 0 then none else some out

/-- The pieces of `s` between occurrences of the byte `sep`.  `cur` is the piece being read,
in reverse. -/
def splitLoop (sep : UInt8) : GoString → GoString → List GoString
  | [], cur => [cur.reverse]
  | c :: s, cur => if c = sep then cur.reverse :: splitLoop sep s [] else splitLoop sep s (c :: cur)

/-- Go `strings.Split` with a separator of one byte. -/
def Split (s : GoString) (sep : UInt8) : List GoString := splitLoop sep s []

/-- Go `strconv.Atoi` on a 64-bit platform: an optional sign and one or more decimal digits
whose value fits `int`; `none` is a `*NumError`. -/
def Atoi (s : GoString) : Option Int :=
  let neg := s.head? = some (ch '-')
  let digits := if s.head? = some (ch '-') ∨ s.head? = some (ch '+') then s.drop 1 else s
  if digits.isEmpty ∨ !digits.all (fun c => ch '0' ≤ c && c ≤ ch '9') then none
  else
    let n : Nat := digits.foldl (fun acc c => acc * 10 + (c.toNat - 48)) 0
    let v : Int := if neg then -(n : Int) else (n : Int)
    if -(2 : Int) ^ 63 ≤ v ∧ v < (2 : Int) ^ 63 then some v else none

/-! ## `runtime.go` -/

/-- `Runtime.MarshalJSON`: the bytes and the error. -/
def Runtime.MarshalJSON (r : Int) : GoString × Option GoError :=
  let jsonValue := formatInt r ++ str " min"
  let quotedValue := Quote jsonValue
  (quotedValue, none)

/-- `Runtime.UnmarshalJSON`: the error and the value of `*r` after the call. -/
def Runtime.UnmarshalJSON (r : Int) (json : GoString) : Option GoError × Int :=
  match Unquote json with
  | none => (some .ErrInvalidRuntimeFormat, r)
  | some uqJson =>
    let parts := Split uqJson (ch ' ')
    if parts.length ≠ 2 ∨ parts.getD 1 [] ≠ str "mins" then (some .ErrInvalidRuntimeFormat, r)
    else
      match Atoi (parts.getD 0 []) with
      | none => (some .ErrInvalidRuntimeFormat, r)
      | some i => (none, i)

/-! ## Validation: `ValidateMovie` (`movies.go`), `ValidateFilter` (`filters.go`) -/

/-- Whether an error is recorded under the field `key`. -/
def Validator.hasError (v : Validator) (key : GoString) : Bool :=
  v.Errors.any (fun e => e.1 = key)

/-- Modelled from the spec: `validator.NotBlank`, the text is non-empty. -/
def Validator.NotBlank (value : GoString) : Bool := value != []

/-- The number of runes of a text, as `utf8.RuneCountInString` counts them (a byte that starts
no valid encoding counts as one rune); the first argument bounds the number of runes. -/
def runeCountLoop : Nat → GoString → Nat
  | 0, _ => 0
  | fuel + 1, s =>
    if s.isEmpty then 0 else 1 + runeCountLoop fuel (s.drop (DecodeRuneInString s).2)

/-- Modelled from the spec: `validator.MaxChars`, the text has at most `n` characters. -/
def Validator.MaxChars (value : GoString) (n : Int) : Bool :=
  decide ((runeCountLoop value.length value : Int) ≤ n)

/-- Modelled from the spec: `validator.Min`, the value is at least `min`. -/
def Validator.Min (value min : Int) : Bool := decide (min ≤ value)

/-- Modelled from the spec: `validator.Max`, the value is at most `max`. -/
def Validator.Max (value max : Int) : Bool := decide (value ≤ max)

/-- Modelled from the spec: `validator.Unique`, no value occurs twice. -/
def Validator.Unique (values : List GoString) : Bool := decide values.Nodup

/-- Modelled from the spec: `validator.In`, the value is one of the permitted values. -/
def Validator.In (value : GoString) (permitted : List GoString) : Bool := decide (value ∈ permitted)

/-- `ValidateMovie`.  `currentYear` is `time.Now().Year()`; a nil `Genres` has length 0. -/
def ValidateMovie (currentYear : Int) (v : Validator) (m : Movie) : Validator :=
  let v := v.Check (Validator.NotBlank m.Title) (str "title") (str "must be provided")
  let v := v.Check (Validator.MaxChars m.Title 500) (str "title")
    (str "must not be more than 500 characters")
  let v := v.Check (m.Year != 0) (str "year") (str "must be provided")
  let v := v.Check (Validator.Min m.Year 1888) (str "year")
    (str "must be greater or equal to than 1888")
  let v := v.Check (Validator.Max m.Year currentYear) (str "year") (str "must not be in future")
  let v := v.Check (m.Runtime != 0) (str "runtime") (str "must be provided")
  let v := v.Check (Validator.Min m.Runtime 1) (str "runtime") (str "must be a positive value")
  let v := v.Check m.Genres.isSome (str "genres") (str "must be provided")
  let v := v.Check (decide ((m.Genres.getD []).length ≤ 5)) (str "genres")
    (str "length must be less than or equal to 5")
  v.Check (Validator.Unique (m.Genres.getD [])) (str "genres") (str "values must be unique")

/-- `ValidateFilter`. -/
def ValidateFilter (v : Validator) (f : Filters) : Validator :=
  let v := v.Check (Validator.Min f.Page 1) (str "page")
    (str "must be greater than or equal to 1")
  let v := v.Check (Validator.Max f.Page 10000000) (str "page")
    (str "must be less than or equal to 10 million")
  let v := v.Check (Validator.Min f.PageSize 1) (str "page_size")
    (str "must be greater than or equal to 1")
  let v := v.Check (Validator.Max f.PageSize 100) (str "page_size")
    (str "must be less than or equal to 100")
  v.Check (Validator.In f.Sort_ f.SortSafelist) (str "sort") (str "invalid sort value")

/-! ## Sample values -/

/-- The stored row of movie 1, at version 3. -/
def casablanca : Movie :=
  ⟨1000, str "Casablanca", some [str "drama", str "romance"], 1, 1942, 102, 3⟩

/-- The stored row of user 7, at version 2. -/
def ann : UserRow :=
  ⟨7, 500, str "Ann", str "ann@example.com", some (str "$2a$12$hash-a"), true, 2⟩

/-- A small database: three movies and two users, no token, no statement issued yet. -/
def sampleDB : DB :=
  { movies :=
      [ casablanca,
        ⟨2000, str "Alien", some [str "horror", str "sci-fi"], 2, 1979, 117, 1⟩,
        ⟨3000, str "Up", some [str "animation"], 3, 2009, 96, 1⟩ ],
    users :=
      [ ann,
        ⟨8, 600, str "Bob", str "bob@example.com", some (str "$2a$12$hash-b"), false, 1⟩ ],
    tokens := [],
    calls := [],
    movieVersionType := .integer,
    userVersionType := .integer }

/-- The sample database without its users. -/
def moviesOnlyDB : DB := { sampleDB with users := [] }

/-- The sample database without its movies. -/
def usersOnlyDB : DB := { sampleDB with movies := [] }

/-- The stored row of movie 1 at version 2^63 - 1, the largest value of a `bigint` column and
of a Go `int`. -/
def lastVersionMovieRow : Movie :=
  ⟨1000, str "Casablanca", some [str "drama", str "romance"], 1, 1942, 102, 9223372036854775807⟩

/-- The stored row of user 7 at version 2^63 - 1. -/
def lastVersionUserRow : UserRow :=
  ⟨7, 500, str "Ann", str "ann@example.com", some (str "$2a$12$hash-a"), true,
    9223372036854775807⟩

/-- A database with `bigint` version columns whose movie 1 and user 7 have reached the largest
version. -/
def lastVersionDB : DB :=
  { movies := [lastVersionMovieRow],
    users := [lastVersionUserRow],
    tokens := [],
    calls := [],
    movieVersionType := .bigint,
    userVersionType := .bigint }

/-- A movie record carrying the stored version 2^63 - 1 of movie 1. -/
def lastVersionMovie : Movie :=
  ⟨1000, str "Casablanca (restored)", some [str "drama"], 1, 1942, 103, 9223372036854775807⟩

/-- A user record carrying the stored version 2^63 - 1 of user 7. -/
def lastVersionUser : User :=
  ⟨500, str "Ann B.", str "ann.b@example.com", ⟨none, some (str "$2a$12$hash-c")⟩, 7,
    9223372036854775807, true⟩

/-- A backend whose title match is equality and whose collation compares bytes. -/
def sampleBackend : Backend :=
  { titleMatch := fun title q => title = q,
    textCompare := fun a b => compare (a.map UInt8.toNat) (b.map UInt8.toNat) }

/-- Filters whose sort value is not in the safelist. -/
def unsafeFilters : Filters :=
  ⟨str "title; DROP TABLE movies", [str "id", str "title", str "year", str "-year"], 1, 20⟩

/-- Filters sorting by year, newest first. -/
def yearDescFilters : Filters :=
  ⟨str "-year", [str "id", str "title", str "year", str "-year"], 1, 20⟩

/-- Filters sorting by year, oldest first. -/
def yearAscFilters : Filters :=
  ⟨str "year", [str "id", str "title", str "year", str "-year"], 1, 20⟩

/-- A stand-in for `sha256.Sum256` in closed instances: the first bytes of the input, filled up
to 32 bytes with zeros. -/
def sampleSum256 : Sum256 := fun s =>
  ⟨(s ++ List.replicate 32 0).take 32, by simp⟩

/-- Sixteen bytes as `rand.Read` may deliver them. -/
def sampleRandom : GoString := [0, 17, 34, 51, 68, 85, 102, 119, 136, 153, 170, 187, 204, 221, 238, 255]

/-- The safelist the movie listing uses. -/
def movieSafelist : List GoString :=
  [str "id", str "title", str "year", str "runtime",
   str "-id", str "-title", str "-year", str "-runtime"]

/-- A movie record carrying version 2 of movie 1, which the store holds at version 3. -/
def staleMovie : Movie := ⟨1000, str "Casablanca (restored)", some [str "drama"], 1, 1942, 103, 2⟩

/-- A movie record carrying the current version 3 of movie 1. -/
def freshMovie : Movie := ⟨1000, str "Casablanca (restored)", some [str "drama"], 1, 1942, 103, 3⟩

/-- A user record carrying version 1 of user 7, whom the store holds at version 2. -/
def staleUser : User :=
  ⟨500, str "Ann B.", str "ann.b@example.com", ⟨none, some (str "$2a$12$hash-c")⟩, 7, 1, true⟩

/-- A user record carrying the current version 2 of user 7. -/
def freshUser : User :=
  ⟨500, str "Ann B.", str "ann.b@example.com", ⟨none, some (str "$2a$12$hash-c")⟩, 7, 2, true⟩

/-- A movie record whose genres are an empty list that is not nil, as the JSON `"genres": []`
decodes. -/
def emptyGenresMovie : Movie := ⟨0, str "Moana", some [], 0, 2016, 107, 0⟩

/-- A movie record with six genres. -/
def sixGenresMovie : Movie :=
  ⟨0, str "Moana", some [str "a", str "b", str "c", str "d", str "e", str "f"], 0, 2016, 107, 0⟩

/-- Validated filters asking for the second page of twenty, sorted by year. -/
def pageTwoFilters : Filters :=
  ⟨str "year", [str "id", str "title", str "year", str "-year"], 2, 20⟩

/-- Validated filters asking for the second page of two, sorted by year, newest first. -/
def smallPageFilters : Filters :=
  ⟨str "-year", [str "id", str "title", str "year", str "-year"], 2, 2⟩

end Greenlight

/-! # Theorems -/

namespace Greenlight

/-! ## Optimistic concurrency: `MovieModel.Update`, `UserModel.UpdateUser`, `MovieModel.Get` -/

theorem movieHit_iff (id version : Int) (r : Movie) :
    movieHit id version r = true ↔ r.ID = id ∧ r.Version = version := by
  simp [movieHit]

theorem userHit_iff (id version : Int) (r : UserRow) :
    userHit id version r = true ↔ r.id = id ∧ r.version = version := by
  simp [userHit]

theorem map_ite_of_forall_not {α : Type} (p : α → Bool) (g : α → α) (l : List α)
    (h : ∀ r ∈ l, p r = false) : l.map (fun r => if p r then g r else r) = l := by
  induction l with
  | nil => rfl
  | cons a t ih =>
    have ha : p a = false := h a (List.mem_cons_self a t)
    have ht : ∀ r ∈ t, p r = false := fun r hr => h r (List.mem_cons_of_mem a hr)
    simp [ha, ih ht]

theorem filter_nil_of_forall_not {α : Type} (p : α → Bool) (l : List α)
    (h : ∀ r ∈ l, p r = false) : l.filter p = [] := by
  induction l with
  | nil => rfl
  | cons a t ih =>
    have ha : p a = false := h a (List.mem_cons_self a t)
    have ht : ∀ r ∈ t, p r = false := fun r hr => h r (List.mem_cons_of_mem a hr)
    simp [ha, ih ht]

/-- `MovieModel.Get` reads the table and nothing else: its results depend on the rows of
`movies` only. -/
theorem Get_congr (db1 db2 : DB) (h : db1.movies = db2.movies) (id : Int) :
    (MovieModel.Get db1 id).err = (MovieModel.Get db2 id).err ∧
    (MovieModel.Get db1 id).out = (MovieModel.Get db2 id).out := by
  unfold MovieModel.Get DB.selectMovieByID
  rw [h]
  by_cases hid : id < 0
  · simp [hid]
  · simp only [hid, if_false]
    cases scanRow (List.filter (fun r => decide (r.ID = id)) db2.movies) with
    | error e => by_cases he : e = GoError.sqlErrNoRows <;> simp [he]
    | ok m => simp

/-- C1: `MovieModel.Update` with a stale version changes nothing.  When the (ID, Version) pair
of the record matches no stored row, `Update` returns `ErrEditConflict`, the three tables are
left exactly as they were, a subsequent `Get` of any id returns what it returned before, and
the caller's record is untouched (so it keeps its `Version`). -/
theorem update_stale_version_changes_nothing (db : DB) (mov : Movie)
    (h : ∀ r ∈ db.movies, ¬ (r.ID = mov.ID ∧ r.Version = mov.Version)) :
    (MovieModel.Update db mov).err = some GoError.ErrEditConflict ∧
    (MovieModel.Update db mov).db.movies = db.movies ∧
    (MovieModel.Update db mov).db.users = db.users ∧
    (MovieModel.Update db mov).db.tokens = db.tokens ∧
    (∀ id, (MovieModel.Get (MovieModel.Update db mov).db id).err = (MovieModel.Get db id).err ∧
      (MovieModel.Get (MovieModel.Update db mov).db id).out = (MovieModel.Get db id).out) ∧
    (MovieModel.Update db mov).out = mov ∧
    (MovieModel.Update db mov).out.Version = mov.Version := by
  have hmiss : ∀ r ∈ db.movies, movieHit mov.ID mov.Version r = false := by
    intro r hr
    have := h r hr
    cases hb : movieHit mov.ID mov.Version r with
    | false => rfl
    | true => exact absurd ((movieHit_iff _ _ _).1 hb) this
  have hf := filter_nil_of_forall_not _ _ hmiss
  have hm := map_ite_of_forall_not (movieHit mov.ID mov.Version)
    (movieSet mov.Title mov.Year mov.Runtime mov.Genres) _ hmiss
  have hrows : (MovieModel.Update db mov).db.movies = db.movies := by
    simp [MovieModel.Update, DB.updateMovie, versionOverflow, hf, scanRow, hm, DB.issue,
      Except.bind]
  refine ⟨?_, hrows, ?_, ?_, ?_, ?_, ?_⟩
  · simp [MovieModel.Update, DB.updateMovie, versionOverflow, hf, scanRow, DB.issue, Except.bind]
  · simp [MovieModel.Update, DB.updateMovie, versionOverflow, hf, scanRow, DB.issue, Except.bind]
  · simp [MovieModel.Update, DB.updateMovie, versionOverflow, hf, scanRow, DB.issue, Except.bind]
  · intro id
    exact Get_congr _ _ hrows id
  · simp [MovieModel.Update, DB.updateMovie, versionOverflow, hf, scanRow, DB.issue, Except.bind]
  · simp [MovieModel.Update, DB.updateMovie, versionOverflow, hf, scanRow, DB.issue, Except.bind]

/-- The closed instance of C1: movie 1 is stored at version 3, the record carries version 2. -/
theorem update_stale_version_changes_nothing_witness :
    (∀ r ∈ sampleDB.movies, ¬ (r.ID = staleMovie.ID ∧ r.Version = staleMovie.Version)) ∧
    (MovieModel.Update sampleDB staleMovie).err = some GoError.ErrEditConflict ∧
    (MovieModel.Update sampleDB staleMovie).db.movies = sampleDB.movies :=
  ⟨by decide,
   (update_stale_version_changes_nothing sampleDB staleMovie (by decide)).1,
   (update_stale_version_changes_nothing sampleDB staleMovie (by decide)).2.1⟩

theorem filter_eq_singleton {α : Type} (f : α → Int) (p : α → Bool) (row : α) (l : List α)
    (hmem : row ∈ l) (hnd : (l.map f).Nodup) (hp : p row = true)
    (hpf : ∀ r, p r = true → f r = f row) : l.filter p = [row] := by
  induction l with
  | nil => cases hmem
  | cons a t ih =>
    rw [List.map_cons, List.nodup_cons] at hnd
    rcases List.mem_cons.1 hmem with h | h
    · subst h
      have ht : ∀ r ∈ t, p r = false := by
        intro r hr
        cases hb : p r with
        | false => rfl
        | true =>
          exact absurd (List.mem_map.2 ⟨r, hr, hpf r hb⟩) hnd.1
      simp [hp, filter_nil_of_forall_not p t ht]
    · have ha : p a = false := by
        cases hb : p a with
        | false => rfl
        | true =>
          exact absurd (List.mem_map.2 ⟨row, h, (hpf a hb).symm⟩) hnd.1
      simp [ha, ih h hnd.2]

theorem getElem?_map_ite {α : Type} (p : α → Bool) (g : α → α) (l : List α) (i : Nat) (r : α)
    (h : l[i]? = some r) :
    (l.map (fun x => if p x then g x else x))[i]? = some (if p r then g r else r) := by
  simp [List.getElem?_map, h]

/-- When exactly one row `row` passes the test `p` (the key `f` is unique and `p` fixes it), the
update `map (if p then g else id)` rewrites `row` and leaves every other row in place. -/
theorem map_ite_unique {α : Type} (f : α → Int) (p : α → Bool) (g : α → α) (row : α)
    (l : List α) (hmem : row ∈ l) (hnd : (l.map f).Nodup) (hp : p row = true)
    (hpf : ∀ r, p r = true → f r = f row) :
    (l.map (fun x => if p x then g x else x)).length = l.length ∧
    (∀ i : Nat, l[i]? = some row → (l.map (fun x => if p x then g x else x))[i]? = some (g row)) ∧
    (∀ (i : Nat) (r : α), l[i]? = some r → r ≠ row →
      (l.map (fun x => if p x then g x else x))[i]? = some r) := by
  refine ⟨by simp, ?_, ?_⟩
  · intro i hi
    rw [getElem?_map_ite p g l i row hi, if_pos hp]
  · intro i r hi hne
    have hr : r ∈ l := List.getElem?_mem hi
    have hpr : p r = false := by
      cases hb : p r with
      | false => rfl
      | true => exact absurd (List.inj_on_of_nodup_map hnd hr hmem (hpf r hb)) hne
    rw [getElem?_map_ite p g l i r hi, hpr]
    simp

theorem filter_id_map_ite (id k v : Int) (g : Movie → Movie) (hg : ∀ r, (g r).ID = r.ID)
    (l : List Movie) :
    (l.map (fun r => if movieHit k v r then g r else r)).filter (fun r => decide (r.ID = id)) =
      (l.filter (fun r => decide (r.ID = id))).map
        (fun r => if movieHit k v r then g r else r) := by
  induction l with
  | nil => rfl
  | cons a t ih =>
    by_cases ha : movieHit k v a = true
    · by_cases hid : a.ID = id
      · simp [ha, hid, hg, ih]
      · simp [ha, hid, hg, ih]
    · by_cases hid : a.ID = id
      · simp [ha, hid, ih]
      · simp [ha, hid, ih]

/-- C2 (amended): a successful update bumps the version by exactly one, for movies and for
users, each on every store state, as long as N+1 is a value of the integer type of the
`version` column.
Movies: `row` is a stored movie whose id and version N the submitted record `mov` carries; ids
are the primary key, and N+1 is a value of the integer type of the `version` column.  Then
`MovieModel.Update` returns nil and sets the record's `Version` to N+1; the row now holds the
submitted title, year, runtime and genres, version N+1, and its old id and created_at; every
other row stays where it was, which `MovieModel.Get` confirms for every other id.
Users: `urow` is a stored user whose id and version N the submitted record `user` carries; ids
are the primary key, no other user has the submitted email, and N+1 is a value of the integer
type of the `version` column.  Then `UserModel.UpdateUser` does the same with name, email,
password_hash and activated. -/
theorem update_success_bumps_version :
    (∀ (db : DB) (mov row : Movie), row ∈ db.movies → row.ID = mov.ID →
      row.Version = mov.Version → (db.movies.map (fun r => r.ID)).Nodup →
      row.Version + 1 ≤ db.movieVersionType.maxValue →
      (MovieModel.Update db mov).err = none ∧
      (MovieModel.Update db mov).out = { mov with Version := row.Version + 1 } ∧
      (MovieModel.Update db mov).db.movies.length = db.movies.length ∧
      (∀ i : Nat, db.movies[i]? = some row →
        (MovieModel.Update db mov).db.movies[i]? =
          some (⟨row.CreatedAt, mov.Title, mov.Genres, row.ID, mov.Year, mov.Runtime,
            row.Version + 1⟩ : Movie)) ∧
      (∀ (i : Nat) (r : Movie), db.movies[i]? = some r → r ≠ row →
        (MovieModel.Update db mov).db.movies[i]? = some r) ∧
      (MovieModel.Update db mov).db.users = db.users ∧
      (MovieModel.Update db mov).db.tokens = db.tokens ∧
      (0 ≤ mov.ID →
        (MovieModel.Get (MovieModel.Update db mov).db mov.ID).err = none ∧
        (MovieModel.Get (MovieModel.Update db mov).db mov.ID).out =
          some (⟨row.CreatedAt, mov.Title, mov.Genres, row.ID, mov.Year, mov.Runtime,
            row.Version + 1⟩ : Movie)) ∧
      (∀ id, id ≠ mov.ID →
        (MovieModel.Get (MovieModel.Update db mov).db id).err = (MovieModel.Get db id).err ∧
        (MovieModel.Get (MovieModel.Update db mov).db id).out = (MovieModel.Get db id).out)) ∧
    (∀ (db : DB) (user : User) (urow : UserRow), urow ∈ db.users → urow.id = user.ID →
      urow.version = user.Version → (db.users.map (fun r => r.id)).Nodup →
      (∀ r ∈ db.users, r.id ≠ user.ID → r.email ≠ user.Email) →
      urow.version + 1 ≤ db.userVersionType.maxValue →
      (UserModel.UpdateUser db user).err = none ∧
      (UserModel.UpdateUser db user).out = { user with Version := urow.version + 1 } ∧
      (UserModel.UpdateUser db user).db.users.length = db.users.length ∧
      (∀ i : Nat, db.users[i]? = some urow →
        (UserModel.UpdateUser db user).db.users[i]? =
          some (⟨urow.id, urow.created_at, user.Name, user.Email, user.Password.hash,
            user.Activated, urow.version + 1⟩ : UserRow)) ∧
      (∀ (i : Nat) (r : UserRow), db.users[i]? = some r → r ≠ urow →
        (UserModel.UpdateUser db user).db.users[i]? = some r) ∧
      (UserModel.UpdateUser db user).db.movies = db.movies ∧
      (UserModel.UpdateUser db user).db.tokens = db.tokens) := by
  constructor
  · -- movies
    intro db mov row hrow hid hver hpk hfit
    have hp : movieHit mov.ID mov.Version row = true := (movieHit_iff _ _ _).2 ⟨hid, hver⟩
    have hpf : ∀ r, movieHit mov.ID mov.Version r = true → r.ID = row.ID := by
      intro r hr
      rw [((movieHit_iff _ _ _).1 hr).1, hid]
    have hf := filter_eq_singleton (fun r : Movie => r.ID) _ row db.movies hrow hpk hp hpf
    have hu := map_ite_unique (fun r : Movie => r.ID) (movieHit mov.ID mov.Version)
      (movieSet mov.Title mov.Year mov.Runtime mov.Genres) row db.movies hrow hpk hp hpf
    have hov : versionOverflow db.movieVersionType [row.Version] = false := by
      simpa [versionOverflow] using hfit
    have hdb : (MovieModel.Update db mov).db.movies = db.movies.map
        (fun r => if movieHit mov.ID mov.Version r then
          movieSet mov.Title mov.Year mov.Runtime mov.Genres r else r) := by
      simp [MovieModel.Update, DB.updateMovie, hov, hf, scanRow, DB.issue, Except.bind]
    have hsel : ∀ id, ((MovieModel.Update db mov).db.movies.filter
        (fun r => decide (r.ID = id))) = (db.movies.filter (fun r => decide (r.ID = id))).map
        (fun r => if movieHit mov.ID mov.Version r then
          movieSet mov.Title mov.Year mov.Runtime mov.Genres r else r) := by
      intro id
      rw [hdb]
      exact filter_id_map_ite id mov.ID mov.Version
        (movieSet mov.Title mov.Year mov.Runtime mov.Genres) (fun r => rfl) db.movies
    refine ⟨?_, ?_, ?_, ?_, ?_, ?_, ?_, ?_, ?_⟩
    · simp [MovieModel.Update, DB.updateMovie, hov, hf, scanRow, DB.issue, Except.bind]
    · simp [MovieModel.Update, DB.updateMovie, hov, hf, scanRow, DB.issue, Except.bind, movieSet]
    · rw [hdb]; exact hu.1
    · intro i hi
      rw [hdb]; exact hu.2.1 i hi
    · intro i r hi hne
      rw [hdb]; exact hu.2.2 i r hi hne
    · simp [MovieModel.Update, DB.updateMovie, hov, hf, scanRow, DB.issue, Except.bind]
    · simp [MovieModel.Update, DB.updateMovie, hov, hf, scanRow, DB.issue, Except.bind]
    · intro hnn
      have hnot : ¬ mov.ID < 0 := not_lt.2 hnn
      have hone : db.movies.filter (fun r => decide (r.ID = mov.ID)) = [row] :=
        filter_eq_singleton (fun r : Movie => r.ID) _ row db.movies hrow hpk
          (by simp [hid]) (by intro r hr; simp at hr; show r.ID = row.ID; rw [hr, hid])
      have h1 := hsel mov.ID
      rw [hone] at h1
      simp only [List.map_cons, List.map_nil, hp, if_true] at h1
      simp [MovieModel.Get, DB.selectMovieByID, hnot, h1, scanRow, movieSet]
    · intro id hne
      have h1 := hsel id
      have hmiss : ∀ r ∈ db.movies.filter (fun r => decide (r.ID = id)),
          movieHit mov.ID mov.Version r = false := by
        intro r hr
        have hrid : r.ID = id := by simpa using (List.mem_filter.1 hr).2
        cases hb : movieHit mov.ID mov.Version r with
        | false => rfl
        | true => exact absurd (hrid.symm.trans ((movieHit_iff _ _ _).1 hb).1) hne
      rw [map_ite_of_forall_not _ _ _ hmiss] at h1
      unfold MovieModel.Get DB.selectMovieByID
      by_cases hneg : id < 0
      · simp [hneg]
      · simp only [hneg, if_false, h1]
        cases scanRow (List.filter (fun r => decide (r.ID = id)) db.movies) with
        | error e => by_cases he : e = GoError.sqlErrNoRows <;> simp [he]
        | ok m => simp
  · -- users
    intro db user urow hurow huid huver hupk hemail hfit
    have hp : userHit user.ID user.Version urow = true := (userHit_iff _ _ _).2 ⟨huid, huver⟩
    have hpf : ∀ r, userHit user.ID user.Version r = true → r.id = urow.id := by
      intro r hr
      rw [((userHit_iff _ _ _).1 hr).1, huid]
    have hf := filter_eq_singleton (fun r : UserRow => r.id) _ urow db.users hurow hupk hp hpf
    have hu := map_ite_unique (fun r : UserRow => r.id) (userHit user.ID user.Version)
      (userSet user.Name user.Email user.Password.hash user.Activated) urow db.users hurow hupk
      hp hpf
    have hov : versionOverflow db.userVersionType [urow.version] = false := by
      simpa [versionOverflow] using hfit
    have hclash : emailClash db.users user.Email user.ID user.Version = false := by
      unfold emailClash
      rw [hf]
      simp only [List.isEmpty_cons, Bool.not_false, Bool.true_and, List.length_singleton]
      have hany : (db.users.filter (fun r => !userHit user.ID user.Version r)).any
          (fun r => decide (r.email = user.Email)) = false := by
        rw [List.any_eq_false]
        intro r hr
        have hrm := (List.mem_filter.1 hr)
        have hnh : userHit user.ID user.Version r = false := by simpa using hrm.2
        have hne : r.id ≠ user.ID := by
          intro hrid
          have : r = urow := List.inj_on_of_nodup_map hupk hrm.1 hurow (hrid.trans huid.symm)
          rw [this, hp] at hnh
          cases hnh
        simpa using hemail r hrm.1 hne
      rw [hany]
      simp
    have hdb : (UserModel.UpdateUser db user).db.users = db.users.map
        (fun r => if userHit user.ID user.Version r then
          userSet user.Name user.Email user.Password.hash user.Activated r else r) := by
      simp [UserModel.UpdateUser, DB.updateUser, hov, hclash, hf, scanRow, DB.issue, Except.bind]
    refine ⟨?_, ?_, ?_, ?_, ?_, ?_, ?_⟩
    · simp [UserModel.UpdateUser, DB.updateUser, hov, hclash, hf, scanRow, DB.issue, Except.bind]
    · simp [UserModel.UpdateUser, DB.updateUser, hov, hclash, hf, scanRow, DB.issue, Except.bind,
        userSet]
    · rw [hdb]; exact hu.1
    · intro i hi
      rw [hdb]; exact hu.2.1 i hi
    · intro i r hi hne
      rw [hdb]; exact hu.2.2 i r hi hne
    · simp [UserModel.UpdateUser, DB.updateUser, hov, hclash, hf, scanRow, DB.issue, Except.bind]
    · simp [UserModel.UpdateUser, DB.updateUser, hov, hclash, hf, scanRow, DB.issue, Except.bind]

/-- The closed instance of C2: movie 1 is updated with its current version in a store that
holds no user, and user 7 with the current version in a store that holds no movie. -/
theorem update_success_bumps_version_witness :
    (casablanca ∈ moviesOnlyDB.movies ∧ casablanca.ID = freshMovie.ID ∧
      casablanca.Version = freshMovie.Version ∧
      (moviesOnlyDB.movies.map (fun r => r.ID)).Nodup ∧
      casablanca.Version + 1 ≤ moviesOnlyDB.movieVersionType.maxValue ∧
      moviesOnlyDB.users = []) ∧
    ((MovieModel.Update moviesOnlyDB freshMovie).err = none ∧
      (MovieModel.Update moviesOnlyDB freshMovie).out = { freshMovie with Version := 3 + 1 } ∧
      (MovieModel.Update moviesOnlyDB freshMovie).db.movies.length = 3 ∧
      (MovieModel.Update moviesOnlyDB freshMovie).db.movies[0]? =
        some (⟨1000, str "Casablanca (restored)", some [str "drama"], 1, 1942, 103, 4⟩ : Movie)) ∧
    (ann ∈ usersOnlyDB.users ∧ ann.id = freshUser.ID ∧ ann.version = freshUser.Version ∧
      (usersOnlyDB.users.map (fun r => r.id)).Nodup ∧
      (∀ r ∈ usersOnlyDB.users, r.id ≠ freshUser.ID → r.email ≠ freshUser.Email) ∧
      ann.version + 1 ≤ usersOnlyDB.userVersionType.maxValue ∧
      usersOnlyDB.movies = []) ∧
    ((UserModel.UpdateUser usersOnlyDB freshUser).err = none ∧
      (UserModel.UpdateUser usersOnlyDB freshUser).out = { freshUser with Version := 2 + 1 } ∧
      (UserModel.UpdateUser usersOnlyDB freshUser).db.users.length = 2 ∧
      (UserModel.UpdateUser usersOnlyDB freshUser).db.users[0]? =
        some (⟨7, 500, str "Ann B.", str "ann.b@example.com", some (str "$2a$12$hash-c"), true,
          3⟩ : UserRow)) :=
  ⟨by decide,
   ⟨(update_success_bumps_version.1 moviesOnlyDB freshMovie casablanca (by decide) (by decide)
      (by decide) (by decide) (by decide)).1,
    (update_success_bumps_version.1 moviesOnlyDB freshMovie casablanca (by decide) (by decide)
      (by decide) (by decide) (by decide)).2.1,
    (update_success_bumps_version.1 moviesOnlyDB freshMovie casablanca (by decide) (by decide)
      (by decide) (by decide) (by decide)).2.2.1,
    (update_success_bumps_version.1 moviesOnlyDB freshMovie casablanca (by decide) (by decide)
      (by decide) (by decide) (by decide)).2.2.2.1 0 (by decide)⟩,
   by decide,
   ⟨(update_success_bumps_version.2 usersOnlyDB freshUser ann (by decide) (by decide)
      (by decide) (by decide) (by decide) (by decide)).1,
    (update_success_bumps_version.2 usersOnlyDB freshUser ann (by decide) (by decide)
      (by decide) (by decide) (by decide) (by decide)).2.1,
    (update_success_bumps_version.2 usersOnlyDB freshUser ann (by decide) (by decide)
      (by decide) (by decide) (by decide) (by decide)).2.2.1,
    (update_success_bumps_version.2 usersOnlyDB freshUser ann (by decide) (by decide)
      (by decide) (by decide) (by decide) (by decide)).2.2.2.1 0 (by decide)⟩⟩

/-- C2 as stated fails at the largest version.  Movie 1 and user 7 are stored at version
2^63 - 1 in `bigint` columns and the submitted records carry that id and version, so the
records match a stored row; yet `version + 1` is out of range, the statement fails, and
`MovieModel.Update` and `UserModel.UpdateUser` return the driver's error instead of nil, leave
the record at version 2^63 - 1 and change no row. -/
theorem update_at_largest_version_fails :
    ((lastVersionMovieRow ∈ lastVersionDB.movies ∧
        lastVersionMovieRow.ID = lastVersionMovie.ID ∧
        lastVersionMovieRow.Version = lastVersionMovie.Version) ∧
      (MovieModel.Update lastVersionDB lastVersionMovie).err =
        some (GoError.pqError (str "pq: bigint out of range")) ∧
      (MovieModel.Update lastVersionDB lastVersionMovie).err ≠ none ∧
      (MovieModel.Update lastVersionDB lastVersionMovie).out.Version = 9223372036854775807 ∧
      (MovieModel.Update lastVersionDB lastVersionMovie).db.movies = lastVersionDB.movies) ∧
    ((lastVersionUserRow ∈ lastVersionDB.users ∧
        lastVersionUserRow.id = lastVersionUser.ID ∧
        lastVersionUserRow.version = lastVersionUser.Version ∧
        (∀ r ∈ lastVersionDB.users,
          r.id ≠ lastVersionUser.ID → r.email ≠ lastVersionUser.Email)) ∧
      (UserModel.UpdateUser lastVersionDB lastVersionUser).err =
        some (GoError.pqError (str "pq: bigint out of range")) ∧
      (UserModel.UpdateUser lastVersionDB lastVersionUser).err ≠ none ∧
      (UserModel.UpdateUser lastVersionDB lastVersionUser).out.Version = 9223372036854775807 ∧
      (UserModel.UpdateUser lastVersionDB lastVersionUser).db.users = lastVersionDB.users) := by
  decide

/-- C3 (what the code does): when the (ID, Version) pair of the record matches no stored user
row, `UserModel.UpdateUser` leaves the rows unchanged but returns `sql.ErrNoRows` as it came
from the driver, not `ErrEditConflict`: its error switch has no case for `sql.ErrNoRows`. -/
theorem updateUser_stale_returns_sqlErrNoRows (db : DB) (user : User)
    (h : ∀ r ∈ db.users, ¬ (r.id = user.ID ∧ r.version = user.Version)) :
    (UserModel.UpdateUser db user).err = some GoError.sqlErrNoRows ∧
    (UserModel.UpdateUser db user).err ≠ some GoError.ErrEditConflict ∧
    (UserModel.UpdateUser db user).db.users = db.users ∧
    (UserModel.UpdateUser db user).out = user := by
  have hmiss : ∀ r ∈ db.users, userHit user.ID user.Version r = false := by
    intro r hr
    cases hb : userHit user.ID user.Version r with
    | false => rfl
    | true => exact absurd ((userHit_iff _ _ _).1 hb) (h r hr)
  have hf := filter_nil_of_forall_not _ _ hmiss
  have hm := map_ite_of_forall_not (userHit user.ID user.Version)
    (userSet user.Name user.Email user.Password.hash user.Activated) _ hmiss
  have hclash : emailClash db.users user.Email user.ID user.Version = false := by
    simp [emailClash, hf]
  have hmsg : Contains (GoError.Error GoError.sqlErrNoRows) (str "users_email_key") = false := by
    decide
  have herr : (UserModel.UpdateUser db user).err = some GoError.sqlErrNoRows := by
    simp [UserModel.UpdateUser, DB.updateUser, versionOverflow, hclash, hf, scanRow, DB.issue,
      Except.bind, hmsg]
  refine ⟨herr, ?_, ?_, ?_⟩
  · rw [herr]; decide
  · simp [UserModel.UpdateUser, DB.updateUser, versionOverflow, hclash, hf, scanRow, DB.issue,
      Except.bind, hmsg, hm]
  · simp [UserModel.UpdateUser, DB.updateUser, versionOverflow, hclash, hf, scanRow, DB.issue,
      Except.bind, hmsg]

/-- The closed instance of C3: user 7 is stored at version 2, the record carries version 1. -/
theorem updateUser_stale_returns_sqlErrNoRows_witness :
    (∀ r ∈ sampleDB.users, ¬ (r.id = staleUser.ID ∧ r.version = staleUser.Version)) ∧
    (UserModel.UpdateUser sampleDB staleUser).err = some GoError.sqlErrNoRows ∧
    (UserModel.UpdateUser sampleDB staleUser).err ≠ some GoError.ErrEditConflict :=
  ⟨by decide,
   (updateUser_stale_returns_sqlErrNoRows sampleDB staleUser (by decide)).1,
   (updateUser_stale_returns_sqlErrNoRows sampleDB staleUser (by decide)).2.1⟩

/-- C4 (what the code does): the guard of `MovieModel.Get` is `id < 0`, so `Get(0)` is not
rejected up front: it sends the `SELECT` to the database, whatever the store holds. -/
theorem get_zero_issues_query (db : DB) :
    (MovieModel.Get db 0).db.calls = db.calls ++ [DBCall.moviesSelectByID 0] ∧
    (MovieModel.Get db 0).db ≠ db := by
  have hcalls : (MovieModel.Get db 0).db.calls = db.calls ++ [DBCall.moviesSelectByID 0] := by
    unfold MovieModel.Get DB.selectMovieByID
    simp only [lt_irrefl, if_false]
    cases scanRow (List.filter (fun r => decide (r.ID = 0)) db.movies) with
    | error e => by_cases he : e = GoError.sqlErrNoRows <;> simp [he, DB.issue]
    | ok m => simp [DB.issue]
  refine ⟨hcalls, ?_⟩
  intro heq
  rw [heq] at hcalls
  simpa using congrArg List.length hcalls

/-! ## Sort resolution: `Filters.sortColumn`, `Filters.sortDirection`, `MovieModel.GetAll` -/

theorem sortColumnLoop_of_not_mem (sort : GoString) (l : List GoString) (h : sort ∉ l) :
    sortColumnLoop sort l = none := by
  induction l with
  | nil => rfl
  | cons a t ih =>
    have ha : a ≠ sort := fun e => h (e ▸ List.mem_cons_self a t)
    have ht : sort ∉ t := fun m => h (List.mem_cons_of_mem a m)
    simp [sortColumnLoop, ha, ih ht]

theorem sortColumnLoop_of_mem (sort : GoString) (l : List GoString) (h : sort ∈ l) :
    sortColumnLoop sort l = some (TrimPrefix sort (str "-")) := by
  induction l with
  | nil => cases h
  | cons a t ih =>
    by_cases ha : a = sort
    · simp [sortColumnLoop, ha]
    · rcases List.mem_cons.1 h with h1 | h1
      · exact absurd h1.symm ha
      · simp [sortColumnLoop, ha, ih h1]

/-- C5: an unsafe sort value never reaches query construction.  When `Sort` is not an element
of `SortSafelist`, `sortColumn` panics with "unsafe sort value: " followed by the value, and
`MovieModel.GetAll` panics with it while the database is as it was, no statement issued.  When
`Sort` is an element of the safelist, `sortColumn` returns normally. -/
theorem unsafe_sort_never_reaches_query (be : Backend) (db : DB) (title : GoString)
    (genres : Option (List GoString)) (f : Filters) :
    (f.Sort_ ∉ f.SortSafelist →
      f.sortColumn = Except.error (str "unsafe sort value: " ++ f.Sort_) ∧
      MovieModel.GetAll be db title genres f =
        Run.panicked (str "unsafe sort value: " ++ f.Sort_) db) ∧
    (f.Sort_ ∈ f.SortSafelist → ∃ column, f.sortColumn = Except.ok column) := by
  constructor
  · intro h
    have hc : f.sortColumn = Except.error (str "unsafe sort value: " ++ f.Sort_) := by
      simp [Filters.sortColumn, sortColumnLoop_of_not_mem _ _ h]
    refine ⟨hc, ?_⟩
    simp [MovieModel.GetAll, hc]
  · intro h
    exact ⟨TrimPrefix f.Sort_ (str "-"), by simp [Filters.sortColumn, sortColumnLoop_of_mem _ _ h]⟩

/-- The closed instance of C5: an injected sort value panics before any statement, and
"-year" resolves. -/
theorem unsafe_sort_never_reaches_query_witness :
    (unsafeFilters.Sort_ ∉ unsafeFilters.SortSafelist ∧
      MovieModel.GetAll sampleBackend sampleDB [] (some []) unsafeFilters =
        Run.panicked (str "unsafe sort value: title; DROP TABLE movies") sampleDB) ∧
    (yearDescFilters.Sort_ ∈ yearDescFilters.SortSafelist ∧
      ∃ column, yearDescFilters.sortColumn = Except.ok column) :=
  ⟨⟨by decide,
    ((unsafe_sort_never_reaches_query sampleBackend sampleDB [] (some []) unsafeFilters).1
      (by decide)).2⟩,
   ⟨by decide,
    (unsafe_sort_never_reaches_query sampleBackend sampleDB [] (some []) yearDescFilters).2
      (by decide)⟩⟩

theorem HasPrefix_dash (s : GoString) :
    HasPrefix s (str "-") = true ↔ ∃ rest, s = ch '-' :: rest := by
  cases s with
  | nil => simp [HasPrefix, str, List.isPrefixOf]
  | cons a t =>
    constructor
    · intro h
      have : a = ch '-' := by
        simp [HasPrefix, str, List.isPrefixOf] at h
        exact h.symm
      exact ⟨t, by rw [this]⟩
    · rintro ⟨rest, h⟩
      injection h with h1 h2
      simp [HasPrefix, str, List.isPrefixOf, h1]

/-- C6: sort resolution for a safelisted value.  When `Sort` is an element of `SortSafelist`,
`sortColumn` returns a column: `Sort` without its one leading "-" when it has one, and then
`sortDirection` is "DESC"; `Sort` itself otherwise, and then `sortDirection` is "ASC".  In
both cases `Sort` is the column with "-" put in front exactly when the direction is "DESC". -/
theorem sort_resolution_safelisted (f : Filters) (h : f.Sort_ ∈ f.SortSafelist) :
    ∃ column, f.sortColumn = Except.ok column ∧
      (((∃ rest, f.Sort_ = ch '-' :: rest ∧ column = rest) ∧ f.sortDirection = str "DESC") ∨
       ((∀ rest, f.Sort_ ≠ ch '-' :: rest) ∧ column = f.Sort_ ∧ f.sortDirection = str "ASC")) ∧
      (f.sortDirection = str "DESC" ↔ HasPrefix f.Sort_ (str "-") = true) ∧
      (f.sortDirection = str "ASC" ↔ HasPrefix f.Sort_ (str "-") = false) ∧
      f.Sort_ = (if f.sortDirection = str "DESC" then str "-" else []) ++ column := by
  refine ⟨TrimPrefix f.Sort_ (str "-"),
    by simp [Filters.sortColumn, sortColumnLoop_of_mem _ _ h], ?_⟩
  have hne : str "DESC" ≠ str "ASC" := by decide
  by_cases hp : HasPrefix f.Sort_ (str "-") = true
  · obtain ⟨rest, hrest⟩ := (HasPrefix_dash _).1 hp
    have hdir : f.sortDirection = str "DESC" := by simp [Filters.sortDirection, hp]
    have hcol : TrimPrefix f.Sort_ (str "-") = rest := by
      rw [TrimPrefix, if_pos hp, hrest]
      rfl
    refine ⟨Or.inl ⟨⟨rest, hrest, hcol⟩, hdir⟩, ?_, ?_, ?_⟩
    · simp [hdir, hp]
    · simp [hdir, hp, hne]
    · rw [hcol, if_pos hdir, hrest]
      rfl
  · have hpf : HasPrefix f.Sort_ (str "-") = false := by simpa using hp
    have hdir : f.sortDirection = str "ASC" := by simp [Filters.sortDirection, hpf]
    have hcol : TrimPrefix f.Sort_ (str "-") = f.Sort_ := by simp [TrimPrefix, hpf]
    have hno : ∀ rest, f.Sort_ ≠ ch '-' :: rest := by
      intro rest e
      exact hp ((HasPrefix_dash _).2 ⟨rest, e⟩)
    refine ⟨Or.inr ⟨hno, hcol, hdir⟩, ?_, ?_, ?_⟩
    · simp [hdir, hpf, hne.symm]
    · simp [hdir, hpf]
    · rw [hcol, if_neg (by rw [hdir]; exact hne.symm)]
      rfl

/-- The closed instance of C6: "-year" resolves to ("year", "DESC") and "year" to
("year", "ASC"). -/
theorem sort_resolution_safelisted_witness :
    (yearDescFilters.Sort_ ∈ yearDescFilters.SortSafelist ∧
      ∃ column, yearDescFilters.sortColumn = Except.ok column ∧
        str "-year" = (if yearDescFilters.sortDirection = str "DESC" then str "-" else [])
          ++ column) ∧
    yearDescFilters.sortColumn = Except.ok (str "year") ∧
    yearDescFilters.sortDirection = str "DESC" ∧
    yearAscFilters.sortColumn = Except.ok (str "year") ∧
    yearAscFilters.sortDirection = str "ASC" :=
  ⟨⟨by decide,
    (sort_resolution_safelisted yearDescFilters (by decide)).imp
      (fun _ hc => ⟨hc.1, hc.2.2.2.2⟩)⟩,
   rfl, by decide, rfl, by decide⟩

/-! ## Tokens: `generateToken`, `TokensModel.New`, `UserModel.GetForToken` -/

theorem flatMap_ite_eq_filter {α : Type} (p : α → Bool) (g : α → List α) (l : List α)
    (hg : ∀ u, g u = if p u then [u] else []) : l.flatMap g = l.filter p := by
  induction l with
  | nil => rfl
  | cons a t ih =>
    rw [List.flatMap_cons, ih, hg a]
    cases hp : p a <;> simp [hp]

theorem flatMap_nil_of_forall {α β : Type} (g : α → List β) (l : List α)
    (hg : ∀ u, g u = []) : l.flatMap g = [] := by
  induction l with
  | nil => rfl
  | cons a t ih => rw [List.flatMap_cons, ih, hg a]; rfl

/-- The token rows that the lookup of `GetForToken` joins to user `u`, in a table that got one
new row whose hash no older row has. -/
theorem filter_tokens_appended (tokens : List TokenRow) (row : TokenRow)
    (hfresh : ∀ t ∈ tokens, t.hash ≠ row.hash) (u : UserRow) (s : GoString) (now : Int) :
    (tokens ++ [row]).filter (fun t =>
        decide (u.id = t.user_id) && decide (t.hash = row.hash) && decide (t.scope = s)
          && decide (t.expiry > now)) =
      if u.id = row.user_id ∧ row.scope = s ∧ now < row.expiry then [row] else [] := by
  have hold : tokens.filter (fun t =>
      decide (u.id = t.user_id) && decide (t.hash = row.hash) && decide (t.scope = s)
        && decide (t.expiry > now)) = [] := by
    apply filter_nil_of_forall_not
    intro t ht
    simp [hfresh t ht]
  rw [List.filter_append, hold, List.nil_append]
  by_cases h1 : u.id = row.user_id
  · by_cases h2 : row.scope = s
    · by_cases h3 : now < row.expiry
      · simp [h1, h2, h3]
      · simp [h1, h2, h3]
    · simp [h1, h2]
  · simp [h1]

/-- C7: token round trip through the store.  The store holds a user with id `U` and no token
row with the hash of the new token.  `TokensModel.New` succeeds and returns a token `t` whose
`Hash` is the SHA-256 of its `Plaintext`; afterwards `GetForToken(t.Plaintext, s)` at time
`now` returns a stored user with id `U` when `s` is the token's scope and `now` is strictly
before `t.Expiry`, and returns `ErrNoRecordFound` when `s` differs from the scope or `now` is at
or after `t.Expiry`. -/
theorem token_round_trip (sum256 : Sum256) (db : DB) (issued : Int) (randomBytes : GoString)
    (U ttl : Int) (scope : GoString)
    (huser : ∃ u ∈ db.users, u.id = U)
    (hfresh : ∀ r ∈ db.tokens,
      r.hash ≠ (sum256 (base32EncodeNoPadding randomBytes)).val) :
    ∃ t,
      (TokensModel.New sum256 db issued (Except.ok randomBytes) U ttl scope).err = none ∧
      (TokensModel.New sum256 db issued (Except.ok randomBytes) U ttl scope).out = some t ∧
      t.Hash = (sum256 t.Plaintext).val ∧ t.UserID = U ∧ t.Scope = scope ∧
      t.Expiry = issued + ttl ∧
      (∀ (now : Int) (s : GoString), s = scope → now < t.Expiry →
        (UserModel.GetForToken sum256
          (TokensModel.New sum256 db issued (Except.ok randomBytes) U ttl scope).db
          now t.Plaintext s).err = none ∧
        ∃ u ∈ db.users, u.id = U ∧
          (UserModel.GetForToken sum256
            (TokensModel.New sum256 db issued (Except.ok randomBytes) U ttl scope).db
            now t.Plaintext s).out =
            some ⟨u.created_at, u.name, u.email, ⟨none, u.password_hash⟩, U, u.version,
              u.activated⟩) ∧
      (∀ (now : Int) (s : GoString), s ≠ scope ∨ t.Expiry ≤ now →
        (UserModel.GetForToken sum256
          (TokensModel.New sum256 db issued (Except.ok randomBytes) U ttl scope).db
          now t.Plaintext s).err = some GoError.ErrNoRecordFound ∧
        (UserModel.GetForToken sum256
          (TokensModel.New sum256 db issued (Except.ok randomBytes) U ttl scope).db
          now t.Plaintext s).out = none) := by
  let plaintext := base32EncodeNoPadding randomBytes
  let row : TokenRow := ⟨(sum256 plaintext).val, U, issued + ttl, scope⟩
  have hdbt : (TokensModel.New sum256 db issued (Except.ok randomBytes) U ttl scope).db.tokens
      = db.tokens ++ [row] := rfl
  have hdbu : (TokensModel.New sum256 db issued (Except.ok randomBytes) U ttl scope).db.users
      = db.users := rfl
  have hfilter := filter_tokens_appended db.tokens row hfresh
  refine ⟨⟨plaintext, issued + ttl, scope, (sum256 plaintext).val, U⟩, rfl, rfl, rfl, rfl, rfl,
    rfl, ?_, ?_⟩
  · intro now s hs hnow
    have hg : ∀ u : UserRow,
        ((db.tokens ++ [row]).filter (fun t =>
          decide (u.id = t.user_id) && decide (t.hash = row.hash) && decide (t.scope = s)
            && decide (t.expiry > now))).map (fun _ => u) =
        if decide (u.id = U) then [u] else [] := by
      intro u
      rw [hfilter u s now]
      by_cases h1 : u.id = U
      · have : u.id = row.user_id ∧ row.scope = s ∧ now < row.expiry := ⟨h1, hs.symm, hnow⟩
        rw [if_pos this]
        simp [h1]
      · have : ¬ (u.id = row.user_id ∧ row.scope = s ∧ now < row.expiry) := fun h => h1 h.1
        rw [if_neg this]
        simp [h1]
    have hrows := flatMap_ite_eq_filter (fun u : UserRow => decide (u.id = U)) _ db.users hg
    obtain ⟨u0, hu0, hu0id⟩ := huser
    have hmem : u0 ∈ db.users.filter (fun u : UserRow => decide (u.id = U)) :=
      List.mem_filter.2 ⟨hu0, by simpa using hu0id⟩
    cases hl : db.users.filter (fun u : UserRow => decide (u.id = U)) with
    | nil => rw [hl] at hmem; cases hmem
    | cons r rest =>
      have hr : r ∈ db.users.filter (fun u : UserRow => decide (u.id = U)) := by
        rw [hl]; exact List.mem_cons_self r rest
      have hrm := List.mem_filter.1 hr
      have hrid : r.id = U := by simpa using hrm.2
      rw [hl] at hrows
      have hsel : (DB.selectUserForToken
          (TokensModel.New sum256 db issued (Except.ok randomBytes) U ttl scope).db
          (sum256 plaintext).val s now).1 = r :: rest := by
        unfold DB.selectUserForToken
        rw [hdbt, hdbu]
        exact hrows
      refine ⟨?_, r, hrm.1, hrid, ?_⟩
      · show (UserModel.GetForToken sum256 _ now plaintext s).err = none
        unfold UserModel.GetForToken
        simp only []
        rw [show DB.selectUserForToken
          (TokensModel.New sum256 db issued (Except.ok randomBytes) U ttl scope).db
          (sum256 plaintext).val s now = (r :: rest, _) from Prod.ext hsel rfl]
        rfl
      · show (UserModel.GetForToken sum256 _ now plaintext s).out = _
        unfold UserModel.GetForToken
        simp only []
        rw [show DB.selectUserForToken
          (TokensModel.New sum256 db issued (Except.ok randomBytes) U ttl scope).db
          (sum256 plaintext).val s now = (r :: rest, _) from Prod.ext hsel rfl]
        simp [scanRow, hrid]
  · intro now s hs
    have hg : ∀ u : UserRow,
        ((db.tokens ++ [row]).filter (fun t =>
          decide (u.id = t.user_id) && decide (t.hash = row.hash) && decide (t.scope = s)
            && decide (t.expiry > now))).map (fun _ => u) = [] := by
      intro u
      rw [hfilter u s now]
      have : ¬ (u.id = row.user_id ∧ row.scope = s ∧ now < row.expiry) := by
        rintro ⟨_, h2, h3⟩
        rcases hs with h | h
        · exact h h2.symm
        · exact absurd h3 (not_lt.2 h)
      rw [if_neg this]
      rfl
    have hrows := flatMap_nil_of_forall _ db.users hg
    have hsel : (DB.selectUserForToken
        (TokensModel.New sum256 db issued (Except.ok randomBytes) U ttl scope).db
        (sum256 plaintext).val s now).1 = [] := by
      unfold DB.selectUserForToken
      rw [hdbt, hdbu]
      exact hrows
    constructor
    · show (UserModel.GetForToken sum256 _ now plaintext s).err = _
      unfold UserModel.GetForToken
      simp only []
      rw [show DB.selectUserForToken
        (TokensModel.New sum256 db issued (Except.ok randomBytes) U ttl scope).db
        (sum256 plaintext).val s now = ([], _) from Prod.ext hsel rfl]
      rfl
    · show (UserModel.GetForToken sum256 _ now plaintext s).out = _
      unfold UserModel.GetForToken
      simp only []
      rw [show DB.selectUserForToken
        (TokensModel.New sum256 db issued (Except.ok randomBytes) U ttl scope).db
        (sum256 plaintext).val s now = ([], _) from Prod.ext hsel rfl]
      rfl

/-- The closed instance of C7: a token for user 7 in the sample store. -/
theorem token_round_trip_witness :
    (∃ u ∈ sampleDB.users, u.id = 7) ∧
    (∀ r ∈ sampleDB.tokens,
      r.hash ≠ (sampleSum256 (base32EncodeNoPadding sampleRandom)).val) ∧
    ∃ t,
      (TokensModel.New sampleSum256 sampleDB 1000 (Except.ok sampleRandom) 7 86400
        (str "activation")).out = some t ∧
      t.Hash = (sampleSum256 t.Plaintext).val :=
  ⟨by decide, by decide,
   (token_round_trip sampleSum256 sampleDB 1000 sampleRandom 7 86400 (str "activation")
      (by decide) (by decide)).imp (fun _ h => ⟨h.2.1, h.2.2.1⟩)⟩

set_option maxRecDepth 100000 in
theorem base32Char_table :
    ∀ i : Fin 256, base32Char i.val.toUInt8 ∈ encodeStd ∧ base32Char i.val.toUInt8 ≠ ch '=' := by
  decide

theorem toUInt8_toNat (b : UInt8) : b.toNat.toUInt8 = b := by
  cases b with
  | mk v =>
    apply UInt8.eq_of_val_eq
    simp [Nat.toUInt8, UInt8.ofNat, UInt8.toNat]

/-- Every character the encoder writes is a letter of the alphabet, never the padding `=`. -/
theorem base32Char_mem (b : UInt8) : base32Char b ∈ encodeStd ∧ base32Char b ≠ ch '=' := by
  have h := base32Char_table ⟨b.toNat, b.val.isLt⟩
  simpa [toUInt8_toNat] using h

/-- The length of the unpadded encoding: `EncodedLen` of `encoding/base32`. -/
theorem base32EncodeNoPadding_length (l : GoString) :
    (base32EncodeNoPadding l).length = (l.length * 8 + 4) / 5 := by
  induction l using base32EncodeNoPadding.induct with
  | case1 => rfl
  | case2 a => simp [base32EncodeNoPadding, base32Blocks]
  | case3 a b => simp [base32EncodeNoPadding, base32Blocks]
  | case4 a b c => simp [base32EncodeNoPadding, base32Blocks]
  | case5 a b c d => simp [base32EncodeNoPadding, base32Blocks]
  | case6 a b c d e rest ih =>
    simp only [base32EncodeNoPadding, List.length_append, List.length_map, ih, base32Blocks,
      List.length_cons, List.length_nil]
    omega

theorem base32EncodeNoPadding_mem (l : GoString) :
    ∀ c ∈ base32EncodeNoPadding l, c ∈ encodeStd ∧ c ≠ ch '=' := by
  induction l using base32EncodeNoPadding.induct with
  | case1 => intro c hc; cases hc
  | case2 a =>
    intro c hc
    obtain ⟨x, _, rfl⟩ := List.mem_map.1 hc
    exact base32Char_mem x
  | case3 a b =>
    intro c hc
    obtain ⟨x, _, rfl⟩ := List.mem_map.1 hc
    exact base32Char_mem x
  | case4 a b c0 =>
    intro c hc
    obtain ⟨x, _, rfl⟩ := List.mem_map.1 hc
    exact base32Char_mem x
  | case5 a b c0 d =>
    intro c hc
    obtain ⟨x, _, rfl⟩ := List.mem_map.1 hc
    exact base32Char_mem x
  | case6 a b c0 d e rest ih =>
    intro c hc
    rw [base32EncodeNoPadding] at hc
    rcases List.mem_append.1 hc with h | h
    · obtain ⟨x, _, rfl⟩ := List.mem_map.1 h
      exact base32Char_mem x
    · exact ih c h

/-- C8: generated token plaintexts always satisfy the length check.  For every 16 bytes from the
random source, `generateToken` returns a token whose `Plaintext` is the unpadded base-32
encoding of those bytes: exactly 26 characters, all from the base-32 alphabet and none the
padding `=`; `ValidatePlaintextToken` records no error for it; and its `Hash` is the 32-byte
SHA-256 digest of the `Plaintext`. -/
theorem generated_token_passes_length_check (sum256 : Sum256) (now : Int)
    (randomBytes : GoString) (userID ttl : Int) (scope : GoString)
    (h16 : randomBytes.length = 16) :
    ∃ tok, generateToken sum256 now (Except.ok randomBytes) userID ttl scope = Except.ok tok ∧
      tok.Plaintext = base32EncodeNoPadding randomBytes ∧
      tok.Plaintext.length = 26 ∧
      ch '=' ∉ tok.Plaintext ∧
      (∀ c ∈ tok.Plaintext, c ∈ encodeStd) ∧
      (∀ v : Validator, ValidatePlaintextToken v tok.Plaintext = v) ∧
      tok.Hash = (sum256 tok.Plaintext).val ∧
      tok.Hash.length = 32 := by
  have hlen : (base32EncodeNoPadding randomBytes).length = 26 := by
    rw [base32EncodeNoPadding_length, h16]
  refine ⟨⟨base32EncodeNoPadding randomBytes, now + ttl, scope,
    (sum256 (base32EncodeNoPadding randomBytes)).val, userID⟩, rfl, rfl, hlen, ?_, ?_, ?_, rfl,
    (sum256 (base32EncodeNoPadding randomBytes)).property⟩
  · intro hmem
    exact (base32EncodeNoPadding_mem randomBytes _ hmem).2 rfl
  · intro c hc
    exact (base32EncodeNoPadding_mem randomBytes c hc).1
  · intro v
    have hne : base32EncodeNoPadding randomBytes ≠ [] := by
      intro h
      rw [h] at hlen
      cases hlen
    simp [ValidatePlaintextToken, Validator.Check, hlen, hne]

/-- The closed instance of C8: the token generated from `sampleRandom`. -/
theorem generated_token_passes_length_check_witness :
    sampleRandom.length = 16 ∧
    ∃ tok, generateToken sampleSum256 1000 (Except.ok sampleRandom) 7 86400
        (str "activation") = Except.ok tok ∧
      tok.Plaintext = str "AAISEM2EKVTHPCEZVK54ZXPO74" ∧
      tok.Plaintext.length = 26 :=
  ⟨by decide,
   (generated_token_passes_length_check sampleSum256 1000 sampleRandom 7 86400
      (str "activation") (by decide)).imp
      (fun _ h => ⟨h.1, h.2.1.trans (by decide), h.2.2.1⟩)⟩

/-! ## The runtime codec: `Runtime.MarshalJSON`, `Runtime.UnmarshalJSON` -/

theorem digitChar_plain (d : Nat) (h : d < 10) :
    plainByte (ch (Nat.digitChar d)) = true ∧ ch (Nat.digitChar d) ≠ ch ' ' := by
  interval_cases d <;> decide

theorem toDigitsCore_plain (fuel : Nat) :
    ∀ (n : Nat) (ds : List Char),
      (∀ c ∈ ds, plainByte (ch c) = true ∧ ch c ≠ ch ' ') →
      ∀ c ∈ Nat.toDigitsCore 10 fuel n ds, plainByte (ch c) = true ∧ ch c ≠ ch ' ' := by
  induction fuel with
  | zero => intro n ds hds c hc; exact hds c (by simpa [Nat.toDigitsCore] using hc)
  | succ k ih =>
    intro n ds hds c hc
    have hcons : ∀ x ∈ Nat.digitChar (n % 10) :: ds,
        plainByte (ch x) = true ∧ ch x ≠ ch ' ' := by
      intro x hx
      rcases List.mem_cons.1 hx with h | h
      · rw [h]; exact digitChar_plain _ (Nat.mod_lt _ (by decide))
      · exact hds x h
    unfold Nat.toDigitsCore at hc
    by_cases h0 : n / 10 = 0
    · simp only [h0, if_true] at hc
      exact hcons c hc
    · simp only [h0, if_false] at hc
      exact ih (n / 10) _ hcons c hc

/-- The text of `%d` consists of plain bytes and has no space. -/
theorem formatInt_plain (i : Int) :
    ∀ b ∈ formatInt i, plainByte b = true ∧ b ≠ ch ' ' := by
  have hd : ∀ b ∈ (Nat.toDigits 10 i.natAbs).map ch, plainByte b = true ∧ b ≠ ch ' ' := by
    intro b hb
    obtain ⟨c, hc, rfl⟩ := List.mem_map.1 hb
    exact toDigitsCore_plain _ _ [] (fun _ h => by cases h) c hc
  intro b hb
  unfold formatInt at hb
  by_cases hneg : i < 0
  · simp only [hneg, if_true] at hb
    rcases List.mem_cons.1 hb with h | h
    · rw [h]; decide
    · exact hd b h
  · simp only [hneg, if_false] at hb
    exact hd b hb

theorem quoteByte_plain (b : UInt8) (h : plainByte b = true) : quoteByte b = [b] := by
  simp only [plainByte, Bool.and_eq_true, decide_eq_true_eq, bne_iff_ne] at h
  obtain ⟨⟨⟨h1, h2⟩, h3⟩, h4⟩ := h
  simp [quoteByte, h1, h2, h3, h4]

theorem flatMap_quoteByte_plain (s : GoString) (h : ∀ b ∈ s, plainByte b = true) :
    s.flatMap quoteByte = s := by
  induction s with
  | nil => rfl
  | cons a t ih =>
    rw [List.flatMap_cons, quoteByte_plain a (h a (List.mem_cons_self a t)),
      ih (fun b hb => h b (List.mem_cons_of_mem a hb))]
    rfl

/-- `strconv.Quote` only adds the two quotes to a text of plain bytes. -/
theorem Quote_plain (s : GoString) (h : ∀ b ∈ s, plainByte b = true) :
    Quote s = dquote :: (s ++ [dquote]) := by
  rw [Quote, flatMap_quoteByte_plain s h]

theorem index_append_of_not_mem (body tail : GoString) (q : UInt8) (h : q ∉ body) :
    index (body ++ q :: tail) q = some body.length := by
  induction body with
  | nil => simp [index]
  | cons a t ih =>
    have ha : a ≠ q := fun e => h (e ▸ List.mem_cons_self a t)
    have ht : q ∉ t := fun m => h (List.mem_cons_of_mem a m)
    simp [index, ha, ih ht]

theorem validStringLoop_ascii (s : GoString) (h : ∀ b ∈ s, b.toNat < 0x80) :
    ∀ fuel, s.length ≤ fuel → validStringLoop fuel s = true := by
  induction s with
  | nil => intro fuel _; cases fuel <;> simp [validStringLoop]
  | cons a t ih =>
    intro fuel hf
    cases fuel with
    | zero => simp at hf
    | succ k =>
      have ha : a.toNat < 0x80 := h a (List.mem_cons_self a t)
      have hne : a.toNat ≠ RuneError := by
        intro e
        rw [e] at ha
        exact absurd ha (by decide)
      have hk : t.length ≤ k := by simpa using hf
      simpa [validStringLoop, DecodeRuneInString, ha, hne] using
        ih (fun b hb => h b (List.mem_cons_of_mem a hb)) k hk

theorem plainByte_facts (b : UInt8) (h : plainByte b = true) :
    b ≠ dquote ∧ b ≠ bslash ∧ b ≠ 10 ∧ b.toNat < 0x80 := by
  simp only [plainByte, Bool.and_eq_true, decide_eq_true_eq, bne_iff_ne] at h
  obtain ⟨⟨⟨h1, h2⟩, h3⟩, h4⟩ := h
  refine ⟨h3, h4, ?_, by omega⟩
  intro e
  rw [e] at h1
  exact absurd h1 (by decide)

/-- `strconv.Unquote` undoes the two quotes around a text of plain bytes. -/
theorem Unquote_plain (s : GoString) (h : ∀ b ∈ s, plainByte b = true) :
    Unquote (dquote :: (s ++ [dquote])) = some s := by
  have hq : dquote ∉ s := fun m => (plainByte_facts _ (h _ m)).1 rfl
  have hb : bslash ∉ s := fun m => (plainByte_facts _ (h _ m)).2.1 rfl
  have hn : (10 : UInt8) ∉ s := fun m => (plainByte_facts _ (h _ m)).2.2.1 rfl
  have hv : ValidString s = true :=
    validStringLoop_ascii s (fun b m => (plainByte_facts _ (h _ m)).2.2.2) _ (le_refl _)
  have hidx := index_append_of_not_mem s [] dquote hq
  have hne : dquote ≠ bquote := by decide
  cases s with
  | nil =>
    simp [Unquote, unquote, index, hne, ValidString, validStringLoop]
  | cons a t =>
    have hidx1 : index (a :: (t ++ [dquote])) dquote = some (t.length + 1) := by
      simpa using hidx
    have htake : (a :: (t ++ [dquote])).take (t.length + 1) = a :: t := by simp
    have hdrop : (a :: (t ++ [dquote])).drop (t.length + 1 + 1) = [] := by simp
    have hb2 : ¬ bslash = a ∧ bslash ∉ t := by
      simpa only [List.mem_cons, not_or] using hb
    have hn2 : ¬ (10 : UInt8) = a ∧ (10 : UInt8) ∉ t := by
      simpa only [List.mem_cons, not_or] using hn
    simp only [Unquote, unquote, List.cons_append, hidx1, htake, hdrop]
    simp [hne, hv, hb2, hn2]

theorem splitLoop_no_sep (sep : UInt8) (s : GoString) (h : sep ∉ s) :
    ∀ cur, splitLoop sep s cur = [cur.reverse ++ s] := by
  induction s with
  | nil => intro cur; simp [splitLoop]
  | cons a t ih =>
    intro cur
    have ha : a ≠ sep := fun e => h (e ▸ List.mem_cons_self a t)
    have ht : sep ∉ t := fun m => h (List.mem_cons_of_mem a m)
    simp [splitLoop, ha, ih ht]

theorem splitLoop_first (sep : UInt8) (a b : GoString) (h : sep ∉ a) :
    ∀ cur, splitLoop sep (a ++ sep :: b) cur = (cur.reverse ++ a) :: splitLoop sep b [] := by
  induction a with
  | nil => intro cur; simp [splitLoop]
  | cons x t ih =>
    intro cur
    have hx : x ≠ sep := fun e => h (e ▸ List.mem_cons_self x t)
    have ht : sep ∉ t := fun m => h (List.mem_cons_of_mem x m)
    simp [splitLoop, hx, ih ht]

/-- The bytes of `%d min` are plain. -/
theorem jsonValue_plain (r : Int) : ∀ b ∈ formatInt r ++ str " min", plainByte b = true := by
  intro b hb
  rcases List.mem_append.1 hb with h | h
  · exact (formatInt_plain r b h).1
  · have hmin : ∀ x ∈ str " min", plainByte x = true := by decide
    exact hmin b h

/-- C10 (what the code does): for every Runtime value `MarshalJSON` returns, with a nil error,
a double quote, the decimal rendering, one space, the unit word "min" and a double quote.  The
unit word is not "mins": 103 is encoded as "103 min" (in quotes). -/
theorem marshalJSON_writes_min (r : Int) :
    Runtime.MarshalJSON r = (dquote :: (formatInt r ++ str " min" ++ [dquote]), none) ∧
    Runtime.MarshalJSON 103 = (str "\"103 min\"", none) ∧
    (Runtime.MarshalJSON 103).1 ≠ str "\"103 mins\"" := by
  refine ⟨?_, by decide, by decide⟩
  rw [Runtime.MarshalJSON]
  simp only [Quote_plain _ (jsonValue_plain r)]

/-- C9 (what the code does): for every Runtime value `r`, `UnmarshalJSON` rejects the bytes
that `r.MarshalJSON()` returns with `ErrInvalidRuntimeFormat` and leaves its target as it was:
the encoder writes the unit "min", the decoder accepts only "mins". -/
theorem marshal_then_unmarshal_fails (r target : Int) :
    Runtime.UnmarshalJSON target (Runtime.MarshalJSON r).1 =
      (some GoError.ErrInvalidRuntimeFormat, target) ∧
    Runtime.UnmarshalJSON 0 (Runtime.MarshalJSON 103).1 =
      (some GoError.ErrInvalidRuntimeFormat, 0) := by
  have hgen : ∀ r target : Int, Runtime.UnmarshalJSON target (Runtime.MarshalJSON r).1 =
      (some GoError.ErrInvalidRuntimeFormat, target) := by
    intro r target
    have hm : (Runtime.MarshalJSON r).1 = dquote :: (formatInt r ++ str " min" ++ [dquote]) := by
      rw [Runtime.MarshalJSON]
      simp only [Quote_plain _ (jsonValue_plain r)]
    rw [hm]
    have hu : Unquote (dquote :: (formatInt r ++ str " min" ++ [dquote])) =
        some (formatInt r ++ str " min") := Unquote_plain _ (jsonValue_plain r)
    have hsp : Split (formatInt r ++ str " min") (ch ' ') = [formatInt r, str "min"] := by
      have h1 : ch ' ' ∉ formatInt r := fun m => (formatInt_plain r _ m).2 rfl
      have h2 : ch ' ' ∉ str "min" := by decide
      have : formatInt r ++ str " min" = formatInt r ++ ch ' ' :: str "min" := rfl
      rw [Split, this, splitLoop_first _ _ _ h1, splitLoop_no_sep _ _ h2]
      rfl
    have hne : str "min" ≠ str "mins" := by decide
    simp only [Runtime.UnmarshalJSON, hu, hsp]
    simp [hne]
  exact ⟨hgen r target, hgen 103 0⟩

/-! ## Validation: `ValidateMovie` -/

theorem hasError_Check (v : Validator) (ok : Bool) (k msg key : GoString) :
    (v.Check ok k msg).hasError key = (v.hasError key || (!ok && decide (k = key))) := by
  cases ok with
  | true => simp [Validator.Check]
  | false =>
    by_cases hk : v.Errors.any (fun e => decide (e.1 = k)) = true
    · by_cases hkey : k = key
      · subst hkey
        simp [Validator.Check, Validator.AddError, Validator.hasError, hk]
      · simp [Validator.Check, Validator.AddError, Validator.hasError, hk, hkey]
    · simp only [Bool.not_eq_true] at hk
      by_cases hkey : k = key
      · subst hkey
        simp [Validator.Check, Validator.AddError, Validator.hasError, hk]
      · simp [Validator.Check, Validator.AddError, Validator.hasError, hk, hkey]

/-- The "genres" error after `ValidateMovie`, in terms of its three genre checks. -/
theorem ValidateMovie_hasError_genres (currentYear : Int) (v : Validator) (m : Movie) :
    (ValidateMovie currentYear v m).hasError (str "genres") =
      (v.hasError (str "genres") || !m.Genres.isSome
        || !decide ((m.Genres.getD []).length ≤ 5) || !Validator.Unique (m.Genres.getD [])) := by
  have h1 : decide (str "title" = str "genres") = false := by decide
  have h2 : decide (str "year" = str "genres") = false := by decide
  have h3 : decide (str "runtime" = str "genres") = false := by decide
  simp only [ValidateMovie, hasError_Check, h1, h2, h3, Bool.and_false, Bool.or_false,
    decide_True, Bool.and_true]

/-- C13 (as amended): `ValidateMovie` enforces presence, the upper bound and distinctness of the
genres.  Starting from a validator without a "genres" error, it leaves the validator without
one exactly when `Genres` is not nil, has at most 5 entries and all entries are distinct; a
movie whose `Genres` is missing, has more than 5 entries, or contains a repeated string gets a
"genres" error. -/
theorem validateMovie_genres_cardinality (currentYear : Int) (v : Validator) (m : Movie)
    (hv : v.hasError (str "genres") = false) :
    ((ValidateMovie currentYear v m).hasError (str "genres") = false ↔
      ∃ gs, m.Genres = some gs ∧ gs.length ≤ 5 ∧ gs.Nodup) ∧
    (m.Genres = none → (ValidateMovie currentYear v m).hasError (str "genres") = true) ∧
    (∀ gs, m.Genres = some gs → 5 < gs.length →
      (ValidateMovie currentYear v m).hasError (str "genres") = true) ∧
    (∀ gs, m.Genres = some gs → ¬ gs.Nodup →
      (ValidateMovie currentYear v m).hasError (str "genres") = true) := by
  rw [ValidateMovie_hasError_genres, hv]
  cases hg : m.Genres with
  | none => simp
  | some gs =>
    simp only [Option.isSome_some, Option.getD_some, Validator.Unique, Bool.not_true,
      Bool.false_or, Option.some.injEq, exists_eq_left']
    refine ⟨?_, by simp, ?_, ?_⟩
    · by_cases h5 : gs.length ≤ 5 <;> by_cases hn : gs.Nodup <;> simp [h5, hn]
    · intro gs' e h
      subst e
      simp [not_le.2 h]
    · intro gs' e h
      subst e
      simp [h]

/-- The closed instance of C13: six genres on a fresh validator. -/
theorem validateMovie_genres_cardinality_witness :
    (Validator.mk []).hasError (str "genres") = false ∧
    (ValidateMovie 2024 (Validator.mk []) sixGenresMovie).hasError (str "genres") = true :=
  ⟨by decide,
   (validateMovie_genres_cardinality 2024 (Validator.mk []) sixGenresMovie (by decide)).2.2.1
     _ rfl (by decide)⟩

/-- C13 as stated fails: a movie whose genres are an empty list that is not nil passes
`ValidateMovie` without a "genres" error (indeed without any error). -/
theorem validateMovie_accepts_empty_genres :
    emptyGenresMovie.Genres = some [] ∧
    (ValidateMovie 2024 (Validator.mk []) emptyGenresMovie).hasError (str "genres") = false ∧
    (ValidateMovie 2024 (Validator.mk []) emptyGenresMovie).Valid = true := by
  decide

/-! ## Runtime decoding: `Runtime.UnmarshalJSON` -/

theorem digitChar_value (d : Nat) (h : d < 10) :
    (ch (Nat.digitChar d)).toNat - 48 = d ∧
    (decide (ch '0' ≤ ch (Nat.digitChar d)) && decide (ch (Nat.digitChar d) ≤ ch '9')) = true := by
  interval_cases d <;> decide

theorem toDigitsCore_ne_nil (fuel : Nat) :
    ∀ (n : Nat) (ds : List Char), ds ≠ [] → Nat.toDigitsCore 10 fuel n ds ≠ [] := by
  induction fuel with
  | zero => intro n ds h; simpa [Nat.toDigitsCore] using h
  | succ k ih =>
    intro n ds _
    unfold Nat.toDigitsCore
    by_cases h0 : n / 10 = 0
    · simp [h0]
    · simp only [h0, if_false]
      exact ih _ _ (by simp)

theorem toDigits_ne_nil (n : Nat) : Nat.toDigits 10 n ≠ [] := by
  unfold Nat.toDigits Nat.toDigitsCore
  by_cases h0 : n / 10 = 0
  · simp [h0]
  · simp only [h0, if_false]
    exact toDigitsCore_ne_nil _ _ _ (by simp)

theorem toDigitsCore_digits (fuel : Nat) :
    ∀ (n : Nat) (ds : List Char),
      (∀ c ∈ ds, (decide (ch '0' ≤ ch c) && decide (ch c ≤ ch '9')) = true) →
      ∀ c ∈ Nat.toDigitsCore 10 fuel n ds,
        (decide (ch '0' ≤ ch c) && decide (ch c ≤ ch '9')) = true := by
  induction fuel with
  | zero => intro n ds hds c hc; exact hds c (by simpa [Nat.toDigitsCore] using hc)
  | succ k ih =>
    intro n ds hds c hc
    have hcons : ∀ x ∈ Nat.digitChar (n % 10) :: ds,
        (decide (ch '0' ≤ ch x) && decide (ch x ≤ ch '9')) = true := by
      intro x hx
      rcases List.mem_cons.1 hx with h | h
      · rw [h]; exact (digitChar_value _ (Nat.mod_lt _ (by decide))).2
      · exact hds x h
    unfold Nat.toDigitsCore at hc
    by_cases h0 : n / 10 = 0
    · simp only [h0, if_true] at hc
      exact hcons c hc
    · simp only [h0, if_false] at hc
      exact ih (n / 10) _ hcons c hc

/-- Reading the digits that `%d` wrote gives the number back. -/
theorem foldl_toDigitsCore (fuel : Nat) :
    ∀ (n : Nat) (ds : List Char), n < fuel →
      List.foldl (fun acc (c : UInt8) => acc * 10 + (c.toNat - 48)) 0
          ((Nat.toDigitsCore 10 fuel n ds).map ch) =
        List.foldl (fun acc (c : UInt8) => acc * 10 + (c.toNat - 48)) n (ds.map ch) := by
  induction fuel with
  | zero => intro n ds h; cases h
  | succ k ih =>
    intro n ds hn
    unfold Nat.toDigitsCore
    by_cases h0 : n / 10 = 0
    · have hlt : n < 10 := by omega
      simp only [h0, if_true, List.map_cons, List.foldl_cons,
        (digitChar_value _ (Nat.mod_lt n (by decide : 0 < 10))).1]
      rw [Nat.mod_eq_of_lt hlt]
      simp
    · simp only [h0, if_false]
      rw [ih (n / 10) _ (by omega)]
      simp only [List.map_cons, List.foldl_cons,
        (digitChar_value _ (Nat.mod_lt n (by decide : 0 < 10))).1]
      rw [Nat.div_add_mod' n 10]

/-- `strconv.Atoi` parses the text of `%d` back, for every value of an `int`. -/
theorem Atoi_formatInt (N : Int) (hlo : -(2 : Int) ^ 63 ≤ N) (hhi : N < (2 : Int) ^ 63) :
    Atoi (formatInt N) = some N := by
  have h63 : (2 : Int) ^ 63 = 9223372036854775808 := by norm_num
  rw [h63] at hlo hhi
  have hne := toDigits_ne_nil N.natAbs
  have hdig : ∀ b ∈ (Nat.toDigits 10 N.natAbs).map ch,
      (decide (ch '0' ≤ b) && decide (b ≤ ch '9')) = true := by
    intro b hb
    obtain ⟨c, hc, rfl⟩ := List.mem_map.1 hb
    exact toDigitsCore_digits _ _ [] (fun _ h => by cases h) c hc
  have hval : List.foldl (fun acc (c : UInt8) => acc * 10 + (c.toNat - 48)) 0
      ((Nat.toDigits 10 N.natAbs).map ch) = N.natAbs := by
    have := foldl_toDigitsCore (N.natAbs + 1) N.natAbs [] (Nat.lt_succ_self _)
    simpa [Nat.toDigits] using this
  have hall : ((Nat.toDigits 10 N.natAbs).map ch).all
      (fun c => decide (ch '0' ≤ c) && decide (c ≤ ch '9')) = true :=
    List.all_eq_true.2 hdig
  cases hD : (Nat.toDigits 10 N.natAbs).map ch with
  | nil => exact absurd (List.map_eq_nil_iff.1 hD) hne
  | cons c rest =>
    rw [hD] at hdig hval hall
    have hc := hdig c (List.mem_cons_self c rest)
    have hc1 : c ≠ ch '-' := by
      intro e; rw [e] at hc; revert hc; decide
    have hc2 : c ≠ ch '+' := by
      intro e; rw [e] at hc; revert hc; decide
    by_cases hneg : N < 0
    · have hs : formatInt N = ch '-' :: c :: rest := by
        simp [formatInt, hneg, hD]
      have hv : -((N.natAbs : Nat) : Int) = N := by omega
      rw [Atoi, hs]
      simp only [List.head?_cons, true_or, if_true, List.drop_succ_cons, List.drop_zero,
        List.isEmpty_cons, hall, Bool.not_true, Bool.false_eq_true, or_self, if_false, hval,
        decide_True, hv]
      simp [hlo, hhi]
    · have hs : formatInt N = c :: rest := by
        simp [formatInt, hneg, hD]
      have hv : ((N.natAbs : Nat) : Int) = N := by omega
      rw [Atoi, hs]
      have e1 : ¬ (some c = some (ch '-')) := fun e => hc1 (Option.some.inj e)
      have e2 : ¬ (some c = some (ch '+')) := fun e => hc2 (Option.some.inj e)
      simp only [List.head?_cons, e1, e2, or_self, if_false, List.isEmpty_cons, hall,
        Bool.not_true, Bool.false_eq_true, hval, decide_False, hv]
      simp [hlo, hhi]

theorem splitLoop_ne_nil (sep : UInt8) (s : GoString) : ∀ cur, splitLoop sep s cur ≠ [] := by
  induction s with
  | nil => intro cur; simp [splitLoop]
  | cons c t ih =>
    intro cur
    by_cases hc : c = sep
    · simp [splitLoop, hc]
    · simp only [splitLoop, hc, if_false]
      exact ih _

theorem splitLoop_eq_singleton (sep : UInt8) (s : GoString) :
    ∀ cur b, splitLoop sep s cur = [b] → sep ∉ s ∧ b = cur.reverse ++ s := by
  induction s with
  | nil =>
    intro cur b h
    simp only [splitLoop, List.cons.injEq, and_true] at h
    simp [h]
  | cons c t ih =>
    intro cur b h
    by_cases hc : c = sep
    · simp only [splitLoop, hc, if_true, List.cons.injEq] at h
      exact absurd h.2 (splitLoop_ne_nil sep t [])
    · simp only [splitLoop, hc, if_false] at h
      obtain ⟨h1, h2⟩ := ih _ _ h
      refine ⟨?_, by simpa using h2⟩
      intro hm
      rcases List.mem_cons.1 hm with e | e
      · exact hc e.symm
      · exact h1 e

theorem splitLoop_eq_pair (sep : UInt8) (s : GoString) :
    ∀ cur a b, splitLoop sep s cur = [a, b] →
      ∃ s1, s = s1 ++ sep :: b ∧ sep ∉ s1 ∧ a = cur.reverse ++ s1 ∧ sep ∉ b := by
  induction s with
  | nil => intro cur a b h; simp [splitLoop] at h
  | cons c t ih =>
    intro cur a b h
    by_cases hc : c = sep
    · simp only [splitLoop, hc, if_true, List.cons.injEq] at h
      obtain ⟨h1, h2⟩ := splitLoop_eq_singleton sep t [] b h.2
      have hb : b = t := by simpa using h2
      subst hb
      exact ⟨[], by simp [hc], by simp, by simp [h.1], h1⟩
    · simp only [splitLoop, hc, if_false] at h
      obtain ⟨s1, e1, e2, e3, e4⟩ := ih _ _ _ h
      refine ⟨c :: s1, by simp [e1], ?_, by simp [e3], e4⟩
      intro hm
      rcases List.mem_cons.1 hm with e | e
      · exact hc e.symm
      · exact e2 e

/-- The bytes of `%d mins` are plain. -/
theorem minsValue_plain (N : Int) : ∀ b ∈ formatInt N ++ str " mins", plainByte b = true := by
  intro b hb
  rcases List.mem_append.1 hb with h | h
  · exact (formatInt_plain N b h).1
  · have hmins : ∀ x ∈ str " mins", plainByte x = true := by decide
    exact hmins b h

theorem UnmarshalJSON_of_unquote_none (target : Int) (json : GoString)
    (h : Unquote json = none) :
    Runtime.UnmarshalJSON target json = (some GoError.ErrInvalidRuntimeFormat, target) := by
  rw [Runtime.UnmarshalJSON, h]

theorem UnmarshalJSON_of_unquote_some (target : Int) (json u : GoString)
    (h : Unquote json = some u) :
    Runtime.UnmarshalJSON target json =
      if (Split u (ch ' ')).length ≠ 2 ∨ (Split u (ch ' ')).getD 1 [] ≠ str "mins" then
        (some GoError.ErrInvalidRuntimeFormat, target)
      else
        match Atoi ((Split u (ch ' ')).getD 0 []) with
        | none => (some GoError.ErrInvalidRuntimeFormat, target)
        | some i => (none, i) := by
  rw [Runtime.UnmarshalJSON, h]

/-- C11: runtime decoding accepts only the fixed two-token format.  A quoted string is a text
that `strconv.Unquote` accepts.  Decoding the quoted string "<N> mins" for an integer `N` (a
value of `int`) yields `N` with a nil error.  An input that is not a quoted string, whose text
has a number of space-separated tokens other than two, whose second token is not exactly
"mins", or whose first token `strconv.Atoi` does not parse, gets `ErrInvalidRuntimeFormat`
and leaves the target unchanged.  Conversely a nil error means the text is an integer token,
one space and "mins"; and no other error value is ever returned.  "103 mins" decodes to 103
while "103 minutes", "abc mins", "103" and the text 103 mins without quotes fail. -/
theorem unmarshalJSON_two_token_format (N target : Int) (json : GoString)
    (hlo : -(2 : Int) ^ 63 ≤ N) (hhi : N < (2 : Int) ^ 63) :
    Runtime.UnmarshalJSON target (dquote :: (formatInt N ++ str " mins" ++ [dquote])) =
      (none, N) ∧
    (Unquote json = none →
      Runtime.UnmarshalJSON target json = (some GoError.ErrInvalidRuntimeFormat, target)) ∧
    (∀ u, Unquote json = some u → (Split u (ch ' ')).length ≠ 2 →
      Runtime.UnmarshalJSON target json = (some GoError.ErrInvalidRuntimeFormat, target)) ∧
    (∀ u, Unquote json = some u → (Split u (ch ' ')).getD 1 [] ≠ str "mins" →
      Runtime.UnmarshalJSON target json = (some GoError.ErrInvalidRuntimeFormat, target)) ∧
    (∀ u, Unquote json = some u → Atoi ((Split u (ch ' ')).getD 0 []) = none →
      Runtime.UnmarshalJSON target json = (some GoError.ErrInvalidRuntimeFormat, target)) ∧
    (∀ v, Runtime.UnmarshalJSON target json = (none, v) →
      ∃ a, Unquote json = some (a ++ str " mins") ∧ ch ' ' ∉ a ∧ Atoi a = some v) ∧
    (∀ e v, Runtime.UnmarshalJSON target json = (some e, v) →
      e = GoError.ErrInvalidRuntimeFormat ∧ v = target) ∧
    Runtime.UnmarshalJSON 0 (str "\"103 mins\"") = (none, 103) ∧
    Runtime.UnmarshalJSON 0 (str "\"103 minutes\"") =
      (some GoError.ErrInvalidRuntimeFormat, 0) ∧
    Runtime.UnmarshalJSON 0 (str "\"abc mins\"") = (some GoError.ErrInvalidRuntimeFormat, 0) ∧
    Runtime.UnmarshalJSON 0 (str "\"103\"") = (some GoError.ErrInvalidRuntimeFormat, 0) ∧
    Runtime.UnmarshalJSON 0 (str "103 mins") = (some GoError.ErrInvalidRuntimeFormat, 0) := by
  refine ⟨?_, ?_, ?_, ?_, ?_, ?_, ?_, by decide, by decide, by decide, by decide, by decide⟩
  · have hu : Unquote (dquote :: (formatInt N ++ str " mins" ++ [dquote])) =
        some (formatInt N ++ str " mins") := Unquote_plain _ (minsValue_plain N)
    have hsp : Split (formatInt N ++ str " mins") (ch ' ') = [formatInt N, str "mins"] := by
      have h1 : ch ' ' ∉ formatInt N := fun m => (formatInt_plain N _ m).2 rfl
      have h2 : ch ' ' ∉ str "mins" := by decide
      have : formatInt N ++ str " mins" = formatInt N ++ ch ' ' :: str "mins" := rfl
      rw [Split, this, splitLoop_first _ _ _ h1, splitLoop_no_sep _ _ h2]
      rfl
    rw [UnmarshalJSON_of_unquote_some _ _ _ hu, hsp]
    have hcond : ¬ (([formatInt N, str "mins"] : List GoString).length ≠ 2 ∨
        ([formatInt N, str "mins"] : List GoString).getD 1 [] ≠ str "mins") := by
      intro h
      rcases h with h | h
      · exact h rfl
      · exact h rfl
    rw [if_neg hcond]
    show (match Atoi (formatInt N) with
      | none => (some GoError.ErrInvalidRuntimeFormat, target)
      | some i => (none, i)) = (none, N)
    rw [Atoi_formatInt N hlo hhi]
  · exact UnmarshalJSON_of_unquote_none target json
  · intro u h hl
    rw [UnmarshalJSON_of_unquote_some _ _ _ h, if_pos (Or.inl hl)]
  · intro u h hm
    rw [UnmarshalJSON_of_unquote_some _ _ _ h, if_pos (Or.inr hm)]
  · intro u h ha
    rw [UnmarshalJSON_of_unquote_some _ _ _ h, ha]
    by_cases hc : (Split u (ch ' ')).length ≠ 2 ∨ (Split u (ch ' ')).getD 1 [] ≠ str "mins"
    · rw [if_pos hc]
    · rw [if_neg hc]
  · intro v h
    cases hu : Unquote json with
    | none =>
      rw [UnmarshalJSON_of_unquote_none _ _ hu] at h
      exact absurd (congrArg Prod.fst h) (by simp)
    | some u =>
      rw [UnmarshalJSON_of_unquote_some _ _ _ hu] at h
      by_cases hc : (Split u (ch ' ')).length ≠ 2 ∨ (Split u (ch ' ')).getD 1 [] ≠ str "mins"
      · rw [if_pos hc] at h
        exact absurd (congrArg Prod.fst h) (by simp)
      · rw [if_neg hc] at h
        have hc' := not_or.1 hc
        have hlen : (Split u (ch ' ')).length = 2 := not_not.1 hc'.1
        have hmins : (Split u (ch ' ')).getD 1 [] = str "mins" := not_not.1 hc'.2
        cases hat : Atoi ((Split u (ch ' ')).getD 0 []) with
        | none =>
          rw [hat] at h
          exact absurd (congrArg Prod.fst h) (by simp)
        | some i =>
          rw [hat] at h
          have hiv : i = v := congrArg Prod.snd h
          match hs : Split u (ch ' '), hlen with
          | [a, b], _ =>
            rw [hs] at hmins hat
            have hb : b = str "mins" := hmins
            have ha : Atoi a = some i := hat
            obtain ⟨s1, e1, e2, e3, _⟩ := splitLoop_eq_pair (ch ' ') u [] a b hs
            have e3' : a = s1 := by simpa using e3
            refine ⟨a, ?_, by rw [e3']; exact e2, by rw [ha, hiv]⟩
            rw [e1, e3', hb]
            rfl
  · intro e v h
    cases hu : Unquote json with
    | none =>
      rw [UnmarshalJSON_of_unquote_none _ _ hu] at h
      simp only [Prod.mk.injEq, Option.some.injEq] at h
      exact ⟨h.1.symm, h.2.symm⟩
    | some u =>
      rw [UnmarshalJSON_of_unquote_some _ _ _ hu] at h
      by_cases hc : (Split u (ch ' ')).length ≠ 2 ∨ (Split u (ch ' ')).getD 1 [] ≠ str "mins"
      · rw [if_pos hc] at h
        simp only [Prod.mk.injEq, Option.some.injEq] at h
        exact ⟨h.1.symm, h.2.symm⟩
      · rw [if_neg hc] at h
        cases hat : Atoi ((Split u (ch ' ')).getD 0 []) with
        | none =>
          rw [hat] at h
          simp only [Prod.mk.injEq, Option.some.injEq] at h
          exact ⟨h.1.symm, h.2.symm⟩
        | some i =>
          rw [hat] at h
          exact absurd (congrArg Prod.fst h) (by simp)

/-- The closed instance of C11: `N` is 103 and the other input is "103 minutes". -/
theorem unmarshalJSON_two_token_format_witness :
    (-(2 : Int) ^ 63 ≤ 103 ∧ (103 : Int) < (2 : Int) ^ 63) ∧
    Runtime.UnmarshalJSON 0 (dquote :: (formatInt 103 ++ str " mins" ++ [dquote])) =
      (none, 103) :=
  ⟨by decide,
   (unmarshalJSON_two_token_format 103 0 (str "\"103 minutes\"") (by decide) (by decide)).1⟩

/-! ## Listing: `MovieModel.GetAll` -/

theorem wrapInt64_of_fits (x : Int) (hlo : -(2 : Int) ^ 63 ≤ x) (hhi : x < (2 : Int) ^ 63) :
    wrapInt64 x = x := by
  unfold wrapInt64
  have h63 : (2 : Int) ^ 63 = 9223372036854775808 := by norm_num
  have h64 : (2 : Int) ^ 64 = 18446744073709551616 := by norm_num
  rw [h63] at hlo hhi
  rw [h63, h64]
  omega

theorem offset_of_validated (f : Filters) (hp1 : 1 ≤ f.Page) (hp2 : f.Page ≤ 10000000)
    (hs1 : 1 ≤ f.PageSize) (hs2 : f.PageSize ≤ 100) :
    f.offset = (f.Page - 1) * f.PageSize ∧ 0 ≤ (f.Page - 1) * f.PageSize := by
  have h63 : (2 : Int) ^ 63 = 9223372036854775808 := by norm_num
  have h0 : 0 ≤ (f.Page - 1) * f.PageSize := mul_nonneg (by omega) (by omega)
  have h1 : (f.Page - 1) * f.PageSize ≤ 10000000 * 100 :=
    mul_le_mul (by omega) hs2 (by omega) (by omega)
  refine ⟨?_, h0⟩
  unfold Filters.offset
  rw [wrapInt64_of_fits (f.Page - 1) (by rw [h63]; omega) (by rw [h63]; omega)]
  exact wrapInt64_of_fits _ (by rw [h63]; omega) (by rw [h63]; omega)

theorem foldl_collect (rows : List (Int × Movie)) :
    ∀ init : List Movie,
      rows.foldl (fun acc row => acc ++ [row.2]) init = init ++ rows.map (fun row => row.2) := by
  induction rows with
  | nil => intro init; simp
  | cons a t ih => intro init; simp [ih]

theorem foldl_last_count (count : Int) (l : List Movie) :
    ∀ z : Int, (l.map (fun r => (count, r))).foldl (fun _ row => row.1) z =
      if l = [] then z else count := by
  induction l with
  | nil => intro z; simp
  | cons a t ih =>
    intro z
    simp only [List.map_cons, List.foldl_cons, ih]
    by_cases ht : t = [] <;> simp [ht]

theorem calculateMetadata_TotalRecords (totalRecords page pageSize : Int) :
    (calculateMetadata totalRecords page pageSize).TotalRecords = totalRecords := by
  unfold calculateMetadata
  by_cases h : totalRecords = 0
  · simp [h]
  · simp [h]

/-- The order of `ORDER BY <column> <direction>, id ASC` is total when the column order is. -/
theorem rowLe_total (cmp : Movie → Movie → Ordering) (desc : Bool)
    (horient : ∀ a b, cmp b a = (cmp a b).swap) (a b : Movie) :
    rowLe cmp desc a b = true ∨ rowLe cmp desc b a = true := by
  have hsw : (if desc then cmp a b else cmp b a) = (if desc then cmp b a else cmp a b).swap := by
    cases desc
    · simpa using horient a b
    · simpa using horient b a
  unfold rowLe
  rw [hsw]
  cases (if desc = true then cmp b a else cmp a b) with
  | lt => simp
  | gt => simp [Ordering.swap]
  | eq =>
    simp only [Ordering.swap, decide_eq_true_eq]
    exact le_total _ _

theorem ordering_lex_trans (o1 o2 o3 : Ordering) (x y z : Int)
    (t1 : o1 ≠ Ordering.gt → o2 ≠ Ordering.gt → o3 ≠ Ordering.gt)
    (t2 : o2 ≠ Ordering.gt → o3.swap ≠ Ordering.gt → o1.swap ≠ Ordering.gt)
    (t3 : o3.swap ≠ Ordering.gt → o1 ≠ Ordering.gt → o2.swap ≠ Ordering.gt)
    (h1 : (match (motive := Ordering → Bool) o1 with
      | .lt => true | .gt => false | .eq => decide (x ≤ y)) = true)
    (h2 : (match (motive := Ordering → Bool) o2 with
      | .lt => true | .gt => false | .eq => decide (y ≤ z)) = true) :
    (match (motive := Ordering → Bool) o3 with
      | .lt => true | .gt => false | .eq => decide (x ≤ z)) = true := by
  cases o1 <;> cases o2 <;> cases o3
  all_goals
    simp only [Ordering.swap, ne_eq, reduceCtorEq, not_false_eq_true, not_true_eq_false,
      true_implies, false_implies, imp_false, decide_eq_true_eq, Bool.false_eq_true]
      at t1 t2 t3 h1 h2 ⊢
  all_goals omega

/-- The order of `ORDER BY <column> <direction>, id ASC` is transitive when the column order
is. -/
theorem rowLe_trans (cmp : Movie → Movie → Ordering) (desc : Bool)
    (horient : ∀ a b, cmp b a = (cmp a b).swap)
    (htrans : ∀ a b c, cmp a b ≠ Ordering.gt → cmp b c ≠ Ordering.gt → cmp a c ≠ Ordering.gt)
    (a b c : Movie) (hab : rowLe cmp desc a b = true) (hbc : rowLe cmp desc b c = true) :
    rowLe cmp desc a c = true := by
  cases desc with
  | false =>
    have t2 := htrans b c a
    have t3 := htrans c a b
    rw [horient a c, horient a b] at t2
    rw [horient a c, horient b c] at t3
    exact ordering_lex_trans (cmp a b) (cmp b c) (cmp a c) a.ID b.ID c.ID (htrans a b c) t2 t3
      hab hbc
  | true =>
    have t1 : cmp b a ≠ Ordering.gt → cmp c b ≠ Ordering.gt → cmp c a ≠ Ordering.gt :=
      fun h1 h2 => htrans c b a h2 h1
    have t2 : cmp c b ≠ Ordering.gt → cmp a c ≠ Ordering.gt → cmp a b ≠ Ordering.gt :=
      fun h1 h2 => htrans a c b h2 h1
    have t3 : cmp a c ≠ Ordering.gt → cmp b a ≠ Ordering.gt → cmp b c ≠ Ordering.gt :=
      fun h1 h2 => htrans b a c h2 h1
    rw [horient c a, horient b a] at t2
    rw [horient c a, horient c b] at t3
    exact ordering_lex_trans (cmp b a) (cmp c b) (cmp c a) a.ID b.ID c.ID t1 t2 t3 hab hbc

/-- C14 (as amended): for validated filters whose sort value names a column of `movies` with a
lawful order, `MovieModel.GetAll` returns nil as error and the rows at positions
offset .. offset+limit-1 of the matching rows in the order of the sort column and direction,
ties broken by id ascending, where offset = (Page-1)*PageSize and limit = PageSize.  When the
page holds a row (offset is less than the number of matching movies) the Metadata is computed
from that number and `TotalRecords` equals it; when the page lies past the last row the slice
is empty and the Metadata is all zero. -/
theorem getAll_page_and_metadata (be : Backend) (db : DB) (title : GoString)
    (genres : Option (List GoString)) (f : Filters) (cmp : Movie → Movie → Ordering)
    (hsort : f.Sort_ ∈ f.SortSafelist)
    (hcol : columnCompare be (TrimPrefix f.Sort_ (str "-")) = some cmp)
    (horient : ∀ a b, cmp b a = (cmp a b).swap)
    (htrans : ∀ a b c, cmp a b ≠ Ordering.gt → cmp b c ≠ Ordering.gt → cmp a c ≠ Ordering.gt)
    (hp1 : 1 ≤ f.Page) (hp2 : f.Page ≤ 10000000)
    (hs1 : 1 ≤ f.PageSize) (hs2 : f.PageSize ≤ 100) :
    ∃ (ordered : List Movie) (o : Outcome (Option (List Movie) × Metadata)),
      MovieModel.GetAll be db title genres f = Run.returned o ∧
      o.err = none ∧
      ordered.Perm (db.movies.filter (listWhere be title genres)) ∧
      ordered.Pairwise
        (fun a b => rowLe cmp (decide (f.sortDirection = str "DESC")) a b = true) ∧
      f.offset = (f.Page - 1) * f.PageSize ∧ f.limit = f.PageSize ∧
      o.out.1 = some ((ordered.drop f.offset.toNat).take f.limit.toNat) ∧
      (f.offset < ((db.movies.filter (listWhere be title genres)).length : Int) →
        o.out.2 = calculateMetadata
          ((db.movies.filter (listWhere be title genres)).length : Int) f.Page f.PageSize ∧
        o.out.2.TotalRecords = ((db.movies.filter (listWhere be title genres)).length : Int)) ∧
      (((db.movies.filter (listWhere be title genres)).length : Int) ≤ f.offset →
        o.out.1 = some [] ∧ o.out.2 = {}) ∧
      o.db.movies = db.movies := by
  have hsc : f.sortColumn = Except.ok (TrimPrefix f.Sort_ (str "-")) := by
    simp [Filters.sortColumn, sortColumnLoop_of_mem _ _ hsort]
  obtain ⟨hoff, hoff0⟩ := offset_of_validated f hp1 hp2 hs1 hs2
  have hoffn : ¬ f.offset < 0 := by rw [hoff]; exact not_lt.2 hoff0
  have hlim : f.limit = f.PageSize := rfl
  have hlimn : ¬ f.limit < 0 := by rw [hlim]; omega
  let r : Movie → Movie → Prop :=
    fun a b => rowLe cmp (decide (f.sortDirection = str "DESC")) a b = true
  let pass := db.movies.filter (listWhere be title genres)
  let ordered := pass.insertionSort r
  let page := (ordered.drop f.offset.toNat).take f.limit.toNat
  have hsel : db.selectMovies be (TrimPrefix f.Sort_ (str "-")) f.sortDirection title genres
      f.limit f.offset =
      (Except.ok (page.map (fun m => ((pass.length : Int), m))),
       db.issue (DBCall.moviesList (TrimPrefix f.Sort_ (str "-") ++ str " " ++ f.sortDirection)
         title genres f.limit f.offset)) := by
    unfold DB.selectMovies
    simp only [hcol, hoffn, hlimn, if_false]
  have hget : MovieModel.GetAll be db title genres f =
      Run.returned ⟨none,
        (some ((page.map (fun m => ((pass.length : Int), m))).foldl
            (fun acc row => acc ++ [row.2]) []),
         calculateMetadata
           ((page.map (fun m => ((pass.length : Int), m))).foldl (fun _ row => row.1) 0)
           f.Page f.PageSize),
        db.issue (DBCall.moviesList (TrimPrefix f.Sort_ (str "-") ++ str " " ++ f.sortDirection)
          title genres f.limit f.offset)⟩ := by
    unfold MovieModel.GetAll
    simp only [hsc, hsel]
  have hmovies : (page.map (fun m => ((pass.length : Int), m))).foldl
      (fun acc row => acc ++ [row.2]) [] = page := by
    rw [foldl_collect]
    simp
  have hcount := foldl_last_count (pass.length : Int) page 0
  have hperm : ordered.Perm pass := List.perm_insertionSort r pass
  have hlen : ordered.length = pass.length := hperm.length_eq
  haveI : IsTotal Movie r := ⟨fun a b => rowLe_total cmp _ horient a b⟩
  haveI : IsTrans Movie r := ⟨fun a b c => rowLe_trans cmp _ horient htrans a b c⟩
  have hsorted : ordered.Pairwise r := List.sorted_insertionSort r pass
  refine ⟨ordered, _, hget, rfl, hperm, hsorted, hoff, hlim, ?_, ?_, ?_, rfl⟩
  · show some _ = some page
    rw [hmovies]
  · intro hlt
    have hne : page ≠ [] := by
      intro hnil
      have h1 : (page.length : Int) = 0 := by rw [hnil]; rfl
      have h2 : page.length = min f.limit.toNat (ordered.length - f.offset.toNat) := by
        simp [page]
      have hlt1 : f.offset < (pass.length : Int) := hlt
      have hlim1 : 1 ≤ f.limit := by rw [hlim]; exact hs1
      have h3 : f.offset.toNat < pass.length := by omega
      have h4 : 1 ≤ f.limit.toNat := by omega
      rw [hlen] at h2
      omega
    have htot : (page.map (fun m => ((pass.length : Int), m))).foldl
        (fun _ row => row.1) 0 = (pass.length : Int) := by
      rw [hcount, if_neg hne]
    constructor
    · show calculateMetadata _ f.Page f.PageSize = _
      rw [htot]
    · show (calculateMetadata _ f.Page f.PageSize).TotalRecords = _
      rw [calculateMetadata_TotalRecords, htot]
  · intro hge
    have hnil : page = [] := by
      have hge1 : (pass.length : Int) ≤ f.offset := hge
      have h3 : pass.length ≤ f.offset.toNat := by omega
      have : ordered.drop f.offset.toNat = [] :=
        List.drop_eq_nil_of_le (by rw [hlen]; exact h3)
      simp [page, this]
    constructor
    · show some _ = some []
      rw [hmovies, hnil]
    · show calculateMetadata _ f.Page f.PageSize = {}
      rw [hcount, if_pos hnil]
      rfl

theorem compare_int_ne_gt (x y : Int) : compare x y ≠ Ordering.gt ↔ x ≤ y :=
  compare_le_iff_le

theorem compare_int_swap (x y : Int) : compare y x = (compare x y).swap := by
  rcases lt_trichotomy x y with h | h | h
  · rw [compare_lt_iff_lt.2 h, compare_gt_iff_gt.2 h]; rfl
  · rw [compare_eq_iff_eq.2 h, compare_eq_iff_eq.2 h.symm]; rfl
  · rw [compare_gt_iff_gt.2 h, compare_lt_iff_lt.2 h]; rfl

/-- The closed instance of C14: the second page of two, newest first, of the three sample
movies holds the oldest one and reports three records. -/
theorem getAll_page_and_metadata_witness :
    (smallPageFilters.Sort_ ∈ smallPageFilters.SortSafelist ∧
      columnCompare sampleBackend (TrimPrefix smallPageFilters.Sort_ (str "-")) =
        some (fun a b => compare a.Year b.Year) ∧
      (1 ≤ smallPageFilters.Page ∧ smallPageFilters.Page ≤ 10000000) ∧
      (1 ≤ smallPageFilters.PageSize ∧ smallPageFilters.PageSize ≤ 100)) ∧
    ∃ (ordered : List Movie) (o : Outcome (Option (List Movie) × Metadata)),
      MovieModel.GetAll sampleBackend sampleDB [] (some []) smallPageFilters = Run.returned o ∧
      o.out.1 = some ((ordered.drop smallPageFilters.offset.toNat).take
        smallPageFilters.limit.toNat) :=
  ⟨⟨by decide, rfl, by decide, by decide⟩,
   (getAll_page_and_metadata sampleBackend sampleDB [] (some []) smallPageFilters
      (fun a b => compare a.Year b.Year) (by decide) rfl
      (fun a b => compare_int_swap a.Year b.Year)
      (fun a b c h1 h2 => (compare_int_ne_gt _ _).2
        (le_trans ((compare_int_ne_gt _ _).1 h1) ((compare_int_ne_gt _ _).1 h2)))
      (by decide) (by decide) (by decide) (by decide)).imp
      (fun _ h => h.imp (fun _ h2 => ⟨h2.1, h2.2.2.2.2.2.2.1⟩))⟩

/-- C14 as stated fails: the three sample movies all match, yet for the second page of
twenty `GetAll` returns an empty slice and Metadata whose `TotalRecords` is 0. -/
theorem getAll_past_last_page_reports_zero :
    (sampleDB.movies.filter (listWhere sampleBackend [] (some []))).length = 3 ∧
    pageTwoFilters.Sort_ ∈ pageTwoFilters.SortSafelist ∧
    (1 ≤ pageTwoFilters.Page ∧ 1 ≤ pageTwoFilters.PageSize ∧ pageTwoFilters.PageSize ≤ 100) ∧
    ∃ o, MovieModel.GetAll sampleBackend sampleDB [] (some []) pageTwoFilters =
        Run.returned o ∧
      o.err = none ∧ o.out.1 = some [] ∧ o.out.2.TotalRecords = 0 :=
  ⟨by decide, by decide, by decide, _, rfl, rfl, rfl, rfl⟩

/-! ## Pagination metadata: `calculateMetadata` -/

theorem ilog2Loop_spec (fuel : Nat) :
    ∀ n, 0 < n → n ≤ fuel →
      2 ^ ilog2Loop fuel n ≤ n ∧ n < 2 ^ (ilog2Loop fuel n + 1) := by
  induction fuel with
  | zero => intro n h1 h2; omega
  | succ k ih =>
    intro n h1 h2
    by_cases h : 2 ≤ n
    · have hk := ih (n / 2) (by omega) (by omega)
      simp only [ilog2Loop, h, if_true]
      rw [pow_succ, pow_succ]
      rw [pow_succ] at hk
      omega
    · have : n = 1 := by omega
      subst this
      simp [ilog2Loop]

/-- The leading bit: `2 ^ ilog2 n ≤ n < 2 ^ (ilog2 n + 1)` for positive `n`. -/
theorem ilog2_spec (n : Nat) (h : 0 < n) : 2 ^ ilog2 n ≤ n ∧ n < 2 ^ (ilog2 n + 1) :=
  ilog2Loop_spec n n h (le_refl n)

/-- Rounding a quotient `n / m` to the nearest integer, ties to even: what the last step of
`Float64.round` computes. -/
theorem roundHalfEven_spec (n m : Nat) (hm : 0 < m) :
    ∃ M, (if m < 2 * (n % m) ∨ (2 * (n % m) = m ∧ n / m % 2 = 1) then n / m + 1 else n / m) = M ∧
      (∀ K, n ≤ K * m → M ≤ K) ∧
      (∀ K, K * m ≤ n → K ≤ M) ∧
      (∀ K, (2 * K + 1) * m < 2 * n → K + 1 ≤ M) := by
  have hdm : m * (n / m) + n % m = n := Nat.div_add_mod n m
  have hr : n % m < m := Nat.mod_lt n hm
  have hq_le : ∀ K, K * m ≤ n → K ≤ n / m := fun K h => (Nat.le_div_iff_mul_le hm).2 h
  by_cases hc : m < 2 * (n % m) ∨ (2 * (n % m) = m ∧ n / m % 2 = 1)
  · refine ⟨n / m + 1, by rw [if_pos hc], ?_, ?_, ?_⟩
    · intro K hK
      have hrpos : 0 < n % m := by
        rcases hc with h | h
        · omega
        · omega
      by_contra hlt
      have hKq : K ≤ n / m := by omega
      have : K * m ≤ (n / m) * m := Nat.mul_le_mul_right m hKq
      nlinarith
    · intro K hK
      have := hq_le K hK
      omega
    · intro K hK
      have hKq : K ≤ n / m := hq_le K (by nlinarith)
      omega
  · refine ⟨n / m, by rw [if_neg hc], ?_, ?_, ?_⟩
    · intro K hK
      exact Nat.div_le_of_le_mul (by rw [Nat.mul_comm]; exact hK)
    · intro K hK
      exact hq_le K hK
    · intro K hK
      have hKq : K ≤ n / m := hq_le K (by nlinarith)
      by_contra hlt
      have hKeq : K = n / m := by omega
      have hnot : ¬ m < 2 * (n % m) := fun h => hc (Or.inl h)
      rw [hKeq] at hK
      nlinarith

/-- The exponent `Float64.round` chooses brackets the quotient: `2 ^ e ≤ num / den < 2 ^ (e+1)`,
written without division. -/
theorem round_exponent_spec (num den : Nat) (hn : 0 < num) (hd : 0 < den) :
    ∃ e : Int,
      (if den * 2 ^ ((ilog2 num : Int) - (ilog2 den : Int)).toNat
            ≤ num * 2 ^ (-((ilog2 num : Int) - (ilog2 den : Int))).toNat
        then (ilog2 num : Int) - (ilog2 den : Int)
        else (ilog2 num : Int) - (ilog2 den : Int) - 1) = e ∧
      den * 2 ^ e.toNat ≤ num * 2 ^ (-e).toNat ∧
      num * 2 ^ (-e).toNat < 2 * (den * 2 ^ e.toNat) := by
  obtain ⟨hn1, hn2⟩ := ilog2_spec num hn
  obtain ⟨hd1, hd2⟩ := ilog2_spec den hd
  rw [pow_succ] at hn2 hd2
  generalize ilog2 num = Ln at *
  generalize ilog2 den = Ld at *
  by_cases hle : Ld ≤ Ln
  · obtain ⟨t, rfl⟩ : ∃ t, Ln = Ld + t := ⟨Ln - Ld, by omega⟩
    have e1 : (((Ld + t : Nat) : Int) - (Ld : Int)).toNat = t := by omega
    have e2 : (-(((Ld + t : Nat) : Int) - (Ld : Int))).toNat = 0 := by omega
    rw [e1, e2, pow_zero, mul_one]
    rw [pow_add] at hn1 hn2
    have hT : 0 < 2 ^ t := Nat.two_pow_pos _
    have hP : 0 < 2 ^ Ld := Nat.two_pow_pos _
    by_cases htest : den * 2 ^ t ≤ num
    · refine ⟨_, if_pos htest, ?_, ?_⟩
      · rw [e1, e2, pow_zero, mul_one]; exact htest
      · rw [e1, e2, pow_zero, mul_one]
        have : 2 ^ Ld * 2 ^ t ≤ den * 2 ^ t := Nat.mul_le_mul_right _ hd1
        omega
    · refine ⟨_, if_neg htest, ?_, ?_⟩
      · cases t with
        | zero =>
          have e3 : (((Ld + 0 : Nat) : Int) - (Ld : Int) - 1).toNat = 0 := by omega
          have e4 : (-(((Ld + 0 : Nat) : Int) - (Ld : Int) - 1)).toNat = 1 := by omega
          rw [e3, e4]
          simp only [pow_zero, mul_one, pow_one] at *
          omega
        | succ t' =>
          have e3 : (((Ld + (t' + 1) : Nat) : Int) - (Ld : Int) - 1).toNat = t' := by omega
          have e4 : (-(((Ld + (t' + 1) : Nat) : Int) - (Ld : Int) - 1)).toNat = 0 := by omega
          rw [e3, e4, pow_zero, mul_one]
          rw [pow_succ] at hn1
          have hT' : 0 < 2 ^ t' := Nat.two_pow_pos _
          have : den * 2 ^ t' < 2 ^ Ld * 2 * 2 ^ t' := Nat.mul_lt_mul_of_pos_right hd2 hT'
          nlinarith
      · cases t with
        | zero =>
          have e3 : (((Ld + 0 : Nat) : Int) - (Ld : Int) - 1).toNat = 0 := by omega
          have e4 : (-(((Ld + 0 : Nat) : Int) - (Ld : Int) - 1)).toNat = 1 := by omega
          rw [e3, e4]
          simp only [pow_zero, mul_one, pow_one] at *
          omega
        | succ t' =>
          have e3 : (((Ld + (t' + 1) : Nat) : Int) - (Ld : Int) - 1).toNat = t' := by omega
          have e4 : (-(((Ld + (t' + 1) : Nat) : Int) - (Ld : Int) - 1)).toNat = 0 := by omega
          rw [e3, e4, pow_zero, mul_one]
          rw [pow_succ] at htest
          nlinarith
  · obtain ⟨t, rfl⟩ : ∃ t, Ld = Ln + (t + 1) := ⟨Ld - Ln - 1, by omega⟩
    have e1 : (((Ln : Nat) : Int) - ((Ln + (t + 1) : Nat) : Int)).toNat = 0 := by omega
    have e2 : (-(((Ln : Nat) : Int) - ((Ln + (t + 1) : Nat) : Int))).toNat = t + 1 := by omega
    have e3 : (((Ln : Nat) : Int) - ((Ln + (t + 1) : Nat) : Int) - 1).toNat = 0 := by omega
    have e4 : (-(((Ln : Nat) : Int) - ((Ln + (t + 1) : Nat) : Int) - 1)).toNat = t + 2 := by
      omega
    rw [e1, e2, pow_zero, mul_one]
    rw [pow_add] at hd1 hd2
    have hT : 0 < 2 ^ (t + 1) := Nat.two_pow_pos _
    have hP : 0 < 2 ^ Ln := Nat.two_pow_pos _
    have hmul1 : 2 ^ Ln * 2 ^ (t + 1) ≤ num * 2 ^ (t + 1) := Nat.mul_le_mul_right _ hn1
    have hmul2 : num * 2 ^ (t + 1) < 2 ^ Ln * 2 * 2 ^ (t + 1) :=
      Nat.mul_lt_mul_of_pos_right hn2 hT
    by_cases htest : den ≤ num * 2 ^ (t + 1)
    · refine ⟨_, if_pos htest, ?_, ?_⟩
      · rw [e1, e2, pow_zero, mul_one]; exact htest
      · rw [e1, e2, pow_zero, mul_one]
        nlinarith
    · refine ⟨_, if_neg htest, ?_, ?_⟩
      · rw [e3, e4, pow_zero, mul_one, pow_succ 2 (t + 1)]
        nlinarith
      · rw [e3, e4, pow_zero, mul_one, pow_succ 2 (t + 1)]
        nlinarith

/-- What `Float64.round` returns for a positive quotient `num / den`: a significand `M` and
an exponent `exp` such that `2 ^ (exp+52) ≤ num / den < 2 ^ (exp+53)` and `M` is
`num / den / 2 ^ exp` rounded to the nearest integer.  All facts are stated without
division. -/
theorem round_spec (num den : Nat) (hn : 0 < num) (hd : 0 < den) :
    ∃ (M : Nat) (exp : Int), Float64.round false num den = Float64.finite false M exp ∧
      den * 2 ^ (exp + 52).toNat ≤ num * 2 ^ (-(exp + 52)).toNat ∧
      num * 2 ^ (-(exp + 52)).toNat < 2 * (den * 2 ^ (exp + 52).toNat) ∧
      (∀ K, num * 2 ^ (-exp).toNat ≤ K * (den * 2 ^ exp.toNat) → M ≤ K) ∧
      (∀ K, K * (den * 2 ^ exp.toNat) ≤ num * 2 ^ (-exp).toNat → K ≤ M) ∧
      (∀ K, (2 * K + 1) * (den * 2 ^ exp.toNat) < 2 * (num * 2 ^ (-exp).toNat) →
        K + 1 ≤ M) := by
  obtain ⟨e, he, h1, h2⟩ := round_exponent_spec num den hn hd
  have hm : 0 < den * 2 ^ (e - 52).toNat := Nat.mul_pos hd (Nat.two_pow_pos _)
  obtain ⟨M, hM, r2, r3, r4⟩ :=
    roundHalfEven_spec (num * 2 ^ (-(e - 52)).toNat) (den * 2 ^ (e - 52).toNat) hm
  have hee : e - 52 + 52 = e := by omega
  refine ⟨M, e - 52, ?_, by rw [hee]; exact h1, by rw [hee]; exact h2, r2, r3, r4⟩
  unfold Float64.round
  rw [if_neg (Nat.pos_iff_ne_zero.1 hn)]
  simp only [he]
  rw [← hM]
  split_ifs <;> rfl

/-- The float of a positive integer: its value `V` is the integer itself below `2 ^ 53`, and
at least `2 ^ 53` from there on. -/
theorem ofInt_spec (n : Nat) (hn : 0 < n) :
    ∃ (M : Nat) (exp : Int) (V : Nat),
      Float64.ofInt (n : Int) = Float64.finite false M exp ∧ 0 < M ∧
      M * 2 ^ exp.toNat = V * 2 ^ (-exp).toNat ∧
      (n < 2 ^ 53 → V = n) ∧ (2 ^ 53 ≤ n → 2 ^ 53 ≤ V) := by
  obtain ⟨M, exp, hr, h1, h2, r2, r3, _⟩ := round_spec n 1 hn Nat.one_pos
  have hof : Float64.ofInt (n : Int) = Float64.finite false M exp := by
    unfold Float64.ofInt
    have h0 : ¬ ((n : Int) < 0) := by omega
    simp only [h0, decide_False, Int.natAbs_ofNat]
    exact hr
  simp only [one_mul] at h1 h2 r2 r3
  by_cases hlt : n < 2 ^ 53
  · -- the exponent is at most 0 and the significand is exact
    have hexp : exp ≤ 0 := by
      by_contra hpos
      have e1 : (-(exp + 52)).toNat = 0 := by omega
      have e2 : 53 ≤ (exp + 52).toNat := by omega
      rw [e1, pow_zero, mul_one] at h1
      have : 2 ^ 53 ≤ 2 ^ (exp + 52).toNat := Nat.pow_le_pow_right (by decide) e2
      omega
    have e0 : exp.toNat = 0 := by omega
    rw [e0, pow_zero] at r2 r3
    have hM : M = n * 2 ^ (-exp).toNat := by
      have a1 := r2 (n * 2 ^ (-exp).toNat) (by rw [mul_one])
      have a2 := r3 (n * 2 ^ (-exp).toNat) (by rw [mul_one])
      omega
    refine ⟨M, exp, n, hof, ?_, ?_, fun _ => rfl, fun h => absurd hlt (not_lt.2 h)⟩
    · rw [hM]; exact Nat.mul_pos hn (Nat.two_pow_pos _)
    · rw [e0, pow_zero, mul_one, hM]
  · have hge : 2 ^ 53 ≤ n := not_lt.1 hlt
    have hexp : 1 ≤ exp := by
      by_contra hneg
      by_cases he : 0 ≤ exp + 52
      · have e1 : (-(exp + 52)).toNat = 0 := by omega
        have e2 : (exp + 52).toNat + 1 ≤ 53 := by omega
        rw [e1, pow_zero, mul_one] at h2
        have : 2 ^ ((exp + 52).toNat + 1) ≤ 2 ^ 53 := Nat.pow_le_pow_right (by decide) e2
        rw [pow_succ] at this
        omega
      · have e1 : (exp + 52).toNat = 0 := by omega
        rw [e1, pow_zero] at h2
        have : n * 1 ≤ n * 2 ^ (-(exp + 52)).toNat :=
          Nat.mul_le_mul_left n (Nat.two_pow_pos _)
        have h53 : (2 : Nat) ≤ 2 ^ 53 := by norm_num
        omega
    have e0 : (-exp).toNat = 0 := by omega
    have e1 : (-(exp + 52)).toNat = 0 := by omega
    have e2 : (exp + 52).toNat = 52 + exp.toNat := by omega
    rw [e0, pow_zero, mul_one] at r3
    rw [e1, pow_zero, mul_one, e2, pow_add] at h1
    have hM : 2 ^ 52 ≤ M := r3 (2 ^ 52) h1
    have hx : 1 ≤ exp.toNat := by omega
    have hpow : 2 ^ 1 ≤ 2 ^ exp.toNat := Nat.pow_le_pow_right (by decide) hx
    refine ⟨M, exp, M * 2 ^ exp.toNat, hof, by omega, by rw [e0, pow_zero, mul_one],
      fun h => absurd h hlt, fun _ => ?_⟩
    calc 2 ^ 53 = 2 ^ 52 * 2 ^ 1 := by norm_num
      _ ≤ M * 2 ^ exp.toNat := Nat.mul_le_mul hM hpow

/-- Rounding does not move a quotient `a / B` with `a < 2 ^ 53` across an integer: when
`k - 1 < a / B ≤ k`, the ceiling of the rounded quotient is `k`. -/
theorem ceil_round_eq (a B c k : Nat) (hc : 0 < c) (ha : a < 2 ^ 53) (hB : 0 < B)
    (hk1 : (k - 1) * B < a) (hk2 : a ≤ k * B) (hk0 : 1 ≤ k) :
    (Float64.Ceil (Float64.round false (a * c) (B * c))).toInt = (k : Int) := by
  have ha0 : 0 < a := by omega
  obtain ⟨M, exp, hr, h1, _, r2, _, r4⟩ :=
    round_spec (a * c) (B * c) (Nat.mul_pos ha0 hc) (Nat.mul_pos hB hc)
  -- cancel the common factor `c`
  have h1' : B * 2 ^ (exp + 52).toNat ≤ a * 2 ^ (-(exp + 52)).toNat := by
    have : B * 2 ^ (exp + 52).toNat * c ≤ a * 2 ^ (-(exp + 52)).toNat * c := by
      calc B * 2 ^ (exp + 52).toNat * c = B * c * 2 ^ (exp + 52).toNat := by ring
        _ ≤ a * c * 2 ^ (-(exp + 52)).toNat := h1
        _ = a * 2 ^ (-(exp + 52)).toNat * c := by ring
    exact Nat.le_of_mul_le_mul_right this hc
  have hexp : exp ≤ 0 := by
    by_contra hpos
    have e1 : (-(exp + 52)).toNat = 0 := by omega
    have e2 : 53 ≤ (exp + 52).toNat := by omega
    rw [e1, pow_zero, mul_one] at h1'
    have h3 : 2 ^ 53 ≤ 2 ^ (exp + 52).toNat := Nat.pow_le_pow_right (by decide) e2
    have h4 : 1 * 2 ^ (exp + 52).toNat ≤ B * 2 ^ (exp + 52).toNat :=
      Nat.mul_le_mul_right _ hB
    omega
  have e0 : exp.toNat = 0 := by omega
  rw [e0, pow_zero, mul_one] at r2 r4
  generalize hs : (-exp).toNat = s at *
  have hS : 0 < 2 ^ s := Nat.two_pow_pos _
  -- the spacing of the floats near the quotient is finer than `1 / B`
  have hBs : B < 2 * 2 ^ s := by
    by_cases he : 0 ≤ exp + 52
    · have e1 : (-(exp + 52)).toNat = 0 := by omega
      obtain ⟨t, ht⟩ : ∃ t, (exp + 52).toNat = t := ⟨_, rfl⟩
      have hst : s + t = 52 := by omega
      rw [e1, pow_zero, mul_one, ht] at h1'
      have hT : 0 < 2 ^ t := Nat.two_pow_pos _
      have h53 : 2 * 2 ^ s * 2 ^ t = 2 ^ 53 := by
        rw [mul_assoc, ← pow_add, hst]; norm_num
      by_contra hnot
      have : 2 * 2 ^ s * 2 ^ t ≤ B * 2 ^ t := Nat.mul_le_mul_right _ (not_lt.1 hnot)
      omega
    · have e1 : (exp + 52).toNat = 0 := by omega
      obtain ⟨t, ht⟩ : ∃ t, (-(exp + 52)).toNat = t := ⟨_, rfl⟩
      have hst : s = 52 + t := by omega
      rw [e1, pow_zero, mul_one, ht] at h1'
      have hT : 0 < 2 ^ t := Nat.two_pow_pos _
      have h53 : 2 * 2 ^ s = 2 ^ 53 * 2 ^ t := by
        rw [hst, pow_add]; norm_num; ring
      have : a * 2 ^ t < 2 ^ 53 * 2 ^ t := Nat.mul_lt_mul_of_pos_right ha hT
      omega
  -- the significand lies in `((k-1) * 2^s, k * 2^s]`
  have hup : M ≤ k * 2 ^ s := by
    apply r2
    calc a * c * 2 ^ s ≤ k * B * c * 2 ^ s :=
          Nat.mul_le_mul_right _ (Nat.mul_le_mul_right _ hk2)
      _ = k * 2 ^ s * (B * c) := by ring
  have hlo : (k - 1) * 2 ^ s + 1 ≤ M := by
    apply r4
    have h5 : (k - 1) * B + 1 ≤ a := hk1
    have h6 : (2 * ((k - 1) * 2 ^ s) + 1) * B < 2 * (a * 2 ^ s) := by
      have h7 : ((k - 1) * B + 1) * 2 ^ s ≤ a * 2 ^ s := Nat.mul_le_mul_right _ h5
      nlinarith
    calc (2 * ((k - 1) * 2 ^ s) + 1) * (B * c) = (2 * ((k - 1) * 2 ^ s) + 1) * B * c := by ring
      _ < 2 * (a * 2 ^ s) * c := Nat.mul_lt_mul_of_pos_right h6 hc
      _ = 2 * (a * c * 2 ^ s) := by ring
  have hka : k ≤ a := by
    have : (k - 1) * 1 ≤ (k - 1) * B := Nat.mul_le_mul_left _ hB
    omega
  have h63 : (2 : Int) ^ 63 = 9223372036854775808 := by norm_num
  have h53 : (2 : Nat) ^ 53 = 9007199254740992 := by norm_num
  rw [hr]
  by_cases hz : 0 ≤ exp
  · have hs0 : s = 0 := by omega
    subst hs0
    simp only [pow_zero, mul_one] at hup hlo
    have hMk : M = k := by omega
    have hexp0 : exp = 0 := by omega
    subst hexp0
    simp only [Float64.Ceil, le_refl, if_true, Float64.toInt, Int.toNat_zero, pow_zero, mul_one,
      Nat.div_one, neg_zero, Bool.false_eq_true, if_false, hMk, h63]
    have : -(9223372036854775808 : Int) ≤ (k : Int) ∧ (k : Int) < 9223372036854775808 := by
      omega
    rw [if_pos this]
  · have hdiv : (M + 2 ^ s - 1) / 2 ^ s = k := by
      apply Nat.div_eq_of_lt_le
      · have : k * 2 ^ s = (k - 1) * 2 ^ s + 2 ^ s := by
          have hk' : k = (k - 1) + 1 := by omega
          conv_lhs => rw [hk']
          ring
        omega
      · have : (k + 1) * 2 ^ s = k * 2 ^ s + 2 ^ s := by ring
        omega
    simp only [Float64.Ceil, hz, if_false, Bool.false_eq_true, hs, hdiv, Float64.toInt,
      Int.toNat_zero, pow_zero, mul_one, Nat.div_one, neg_zero, h63]
    have : -(9223372036854775808 : Int) ≤ (k : Int) ∧ (k : Int) < 9223372036854775808 := by
      omega
    rw [if_pos this]

/-- The computation of `lastPage` in `calculateMetadata` is the exact ceiling for a total
below `2 ^ 53`. -/
theorem lastPage_eq_ceil (a b : Nat) (ha1 : 1 ≤ a) (ha : a < 2 ^ 53) (hb : 1 ≤ b) :
    (Float64.Ceil ((Float64.ofInt (a : Int)).div (Float64.ofInt (b : Int)))).toInt =
      (((a + b - 1) / b : Nat) : Int) := by
  obtain ⟨Ma, ea, A, hfa, hMa, hvA, hA1, _⟩ := ofInt_spec a ha1
  obtain ⟨Mb, eb, B, hfb, hMb, hvB, hB1, hB2⟩ := ofInt_spec b hb
  have hA : A = a := hA1 ha
  subst hA
  have hB0 : 0 < B := by
    rcases Nat.eq_zero_or_pos B with h | h
    · rw [h, zero_mul] at hvB
      have := Nat.mul_pos hMb (Nat.two_pow_pos eb.toNat)
      omega
    · exact h
  have hdiv : (Float64.ofInt (A : Int)).div (Float64.ofInt (b : Int)) =
      Float64.round false (A * (2 ^ (-ea).toNat * 2 ^ (-eb).toNat))
        (B * (2 ^ (-ea).toNat * 2 ^ (-eb).toNat)) := by
    rw [hfa, hfb]
    have hne : Mb ≠ 0 := Nat.pos_iff_ne_zero.1 hMb
    simp only [Float64.div, hne, if_false, bne_self_eq_false]
    congr 1
    · rw [hvA]; ring
    · rw [hvB]; ring
  rw [hdiv]
  have hc : 0 < 2 ^ (-ea).toNat * 2 ^ (-eb).toNat :=
    Nat.mul_pos (Nat.two_pow_pos _) (Nat.two_pow_pos _)
  -- the ceiling `k` of `A / b`
  have hdm : b * ((A + b - 1) / b) + (A + b - 1) % b = A + b - 1 := Nat.div_add_mod _ _
  have hmod : (A + b - 1) % b < b := Nat.mod_lt _ hb
  have hk0 : 1 ≤ (A + b - 1) / b := (Nat.le_div_iff_mul_le hb).2 (by omega)
  by_cases hlt : b < 2 ^ 53
  · have hB : B = b := hB1 hlt
    subst hB
    apply ceil_round_eq A B _ _ hc ha hB0 _ _ hk0
    · generalize (A + B - 1) / B = k at hdm hk0
      generalize (A + B - 1) % B = r at hdm hmod
      obtain ⟨j, rfl⟩ : ∃ j, k = j + 1 := ⟨k - 1, by omega⟩
      have hdm1 : B * (j + 1) + r + 1 = A + B := by omega
      simp only [Nat.add_sub_cancel]
      nlinarith
    · generalize (A + B - 1) / B = k at hdm hk0
      generalize (A + B - 1) % B = r at hdm hmod
      have hdm1 : B * k + r + 1 = A + B := by omega
      nlinarith
  · have hge : 2 ^ 53 ≤ b := not_lt.1 hlt
    have hBge := hB2 hge
    have hk1 : (A + b - 1) / b = 1 := by
      apply Nat.div_eq_of_lt_le
      · omega
      · omega
    rw [hk1]
    apply ceil_round_eq A B _ 1 hc ha hB0
    · simp; omega
    · omega
    · exact le_refl 1

/-- C12 (as amended): `calculateMetadata` equals its reference definition for totals up to
the precision of `float64`.  For `totalRecords = 0` it returns the all-zero Metadata whatever
`page` and `pageSize` are.  For `1 ≤ totalRecords < 2 ^ 53` and `pageSize ≥ 1` it returns
`CurrentPage = page`, `PageSize = pageSize`, `FirstPage = 1`, `TotalRecords = totalRecords`
and `LastPage = ceil(totalRecords / pageSize)`, the least integer `L` with
`L * pageSize ≥ totalRecords`.  With 95 records, page 2 and page size 20 the result is
`{2, 20, 1, 5, 95}`. -/
theorem calculateMetadata_reference (totalRecords page pageSize : Int) :
    calculateMetadata 0 page pageSize = {} ∧
    (1 ≤ totalRecords → totalRecords < 2 ^ 53 → 1 ≤ pageSize →
      calculateMetadata totalRecords page pageSize =
        ⟨page, pageSize, 1, (totalRecords + pageSize - 1) / pageSize, totalRecords⟩ ∧
      totalRecords ≤ (totalRecords + pageSize - 1) / pageSize * pageSize ∧
      ∀ L : Int, totalRecords ≤ L * pageSize →
        (totalRecords + pageSize - 1) / pageSize ≤ L) ∧
    calculateMetadata 95 2 20 = ⟨2, 20, 1, 5, 95⟩ := by
  refine ⟨rfl, ?_, ?_⟩
  · intro h1 h53 hp
    obtain ⟨a, rfl⟩ : ∃ a : Nat, totalRecords = (a : Int) := ⟨totalRecords.toNat, by omega⟩
    obtain ⟨b, rfl⟩ : ∃ b : Nat, pageSize = (b : Int) := ⟨pageSize.toNat, by omega⟩
    have ha1 : 1 ≤ a := by omega
    have hb1 : 1 ≤ b := by omega
    have ha : a < 2 ^ 53 := by
      have : ((a : Nat) : Int) < ((2 ^ 53 : Nat) : Int) := by
        rw [Nat.cast_pow]; exact h53
      exact Int.ofNat_lt.1 this
    have hcast : ((a : Int) + (b : Int) - 1) / (b : Int) = (((a + b - 1) / b : Nat) : Int) := by
      rw [Int.natCast_div]
      congr 1
      omega
    have hdm : b * ((a + b - 1) / b) + (a + b - 1) % b = a + b - 1 := Nat.div_add_mod _ _
    have hmod : (a + b - 1) % b < b := Nat.mod_lt _ hb1
    rw [hcast]
    refine ⟨?_, ?_, ?_⟩
    · have hne : ¬ ((a : Int) = 0) := by omega
      simp only [calculateMetadata, hne, if_false, lastPage_eq_ceil a b ha1 ha hb1]
    · have : a ≤ (a + b - 1) / b * b := by
        generalize (a + b - 1) / b = k at hdm
        generalize (a + b - 1) % b = r at hdm hmod
        have hdm1 : b * k + r + 1 = a + b := by omega
        nlinarith
      exact_mod_cast this
    · intro L hL
      by_contra hlt
      have hL1 : L + 1 ≤ (((a + b - 1) / b : Nat) : Int) := by omega
      have hb0 : (0 : Int) ≤ (b : Int) := by omega
      have h2 : (L + 1) * (b : Int) ≤ (((a + b - 1) / b : Nat) : Int) * (b : Int) :=
        mul_le_mul_of_nonneg_right hL1 hb0
      have h3 : (((a + b - 1) / b : Nat) : Int) * (b : Int) + ((a + b - 1) % b : Nat)
          = (a : Int) + (b : Int) - 1 := by
        have := congrArg (fun x : Nat => (x : Int)) hdm
        simp only [Nat.cast_add, Nat.cast_mul] at this
        rw [mul_comm] at this
        rw [this]
        omega
      have h4 : (0 : Int) ≤ ((a + b - 1) % b : Nat) := by omega
      nlinarith
  · set_option maxRecDepth 8000 in decide

/-- The closed instance of C12: 95 records in pages of 20. -/
theorem calculateMetadata_reference_witness :
    ((1 : Int) ≤ 95 ∧ (95 : Int) < 2 ^ 53 ∧ (1 : Int) ≤ 20) ∧
    calculateMetadata 95 2 20 = ⟨2, 20, 1, (95 + 20 - 1) / 20, 95⟩ :=
  ⟨by decide,
   ((calculateMetadata_reference 95 2 20).2.1 (by decide) (by decide) (by decide)).1⟩

set_option maxRecDepth 8000 in
/-- C12 as stated fails: `float64` cannot hold `2 ^ 53 + 1`, so for that many records in pages
of one `LastPage` is `2 ^ 53`, which is too small. -/
theorem calculateMetadata_rounds_large_totals :
    calculateMetadata 9007199254740993 1 1 =
      ⟨1, 1, 1, 9007199254740992, 9007199254740993⟩ ∧
    ¬ ((9007199254740993 : Int) ≤ (calculateMetadata 9007199254740993 1 1).LastPage * 1) := by
  decide

end Greenlight
